import Mathlib

/-!
Verification of the hierarchical table widget (table.go) of the unison
repository. Rows are modelled as a mutually inductive tree: a row carries a
UUID (as a natural number, 0 standing for the zero UUID), the CanHaveChildren
flag, the IsOpen flag, and a forest of child rows. Float32 quantities
(column widths, paddings, heights) are modelled as rationals, and the
preferred-size computation of a cell, which goes through UI panel callbacks
outside this package, is an abstract function stored in the table state.
The row cache, selection operations, mouse-down selection handling, the
disclosure hit-rect handler, column auto-sizing and the debounced
rescheduling guards are translated from table.go. The selection-changed
callback is modelled by a counter that each invocation increments.
-/

mutual

inductive Row : Type where
  | node : Nat → Bool → Bool → Forest → Row

inductive Forest : Type where
  | nil : Forest
  | cons : Row → Forest → Forest

end

def Row.uuid : Row → Nat
  | .node u _ _ _ => u

def Row.canHaveChildren : Row → Bool
  | .node _ ch _ _ => ch

def Row.isOpen : Row → Bool
  | .node _ _ op _ => op

def Row.children : Row → Forest
  | .node _ _ _ cs => cs

def Forest.toList : Forest → List Row
  | .nil => []
  | .cons r rs => r :: rs.toList

/-- ColumnInfo from table.go, with float32 fields as rationals. -/
structure ColumnInfo where
  ID : Int
  Current : Rat
  Minimum : Rat
  Maximum : Rat
  AutoMinimum : Rat
  AutoMaximum : Rat

/-- One entry of the row cache (tableCache in table.go). -/
structure CacheEntry where
  row : Row
  parent : Int
  depth : Nat
  height : Rat

/-- The theme and measuring inputs that the cache rebuild and column sizing
read: the TableTheme fields of table.go that matter here, the column list,
and cellPref, which models cellPrefSize: given the row data, the cache row
index, the column index and a width constraint it returns the preferred
(width, height) of the cell; its body goes through UI panel sizing callbacks
outside this package, so it is kept abstract. -/
structure TableParams where
  HierarchyColumnID : Int
  HierarchyIndent : Rat
  MinimumRowHeight : Rat
  PaddingTop : Rat
  PaddingLeft : Rat
  PaddingBottom : Rat
  PaddingRight : Rat
  Columns : List ColumnInfo
  cellPref : Row → Nat → Nat → Rat → Rat × Rat

/-- The mutable table fields that the verified operations of table.go read
or write. -/
structure TableState where
  params : TableParams
  roots : Forest
  filteredRows : Option Forest
  rowCache : List CacheEntry
  selMap : Finset Nat
  selAnchor : Nat
  lastSel : Nat
  selNeedsPrune : Bool
  notifyCount : Nat

/-- Contribution of one column to heightForColumns: none when the current
width is not positive (the loop skips such columns). -/
def colHeightContribution (p : TableParams) (rowData : Row) (row depth col : Nat)
    (c : ColumnInfo) : Option Rat :=
  if c.Current ≤ 0 then none
  else
    let w := c.Current - (p.PaddingLeft + p.PaddingRight)
    let w := if c.ID = p.HierarchyColumnID then
        w - (p.PaddingLeft + p.HierarchyIndent * ((depth : Rat) + 1))
      else w
    some ((p.cellPref rowData row col w).2 + p.PaddingTop + p.PaddingBottom)

/-- heightForColumns from table.go. -/
def heightForColumns (p : TableParams) (rowData : Row) (row depth : Nat) : Rat :=
  let height := p.Columns.enum.foldl (fun h q =>
    match colHeightContribution p rowData row depth q.1 q.2 with
    | some v => if h < v then v else h
    | none => h) 0
  max ((Int.ceil height : Int) : Rat) p.MinimumRowHeight

mutual

/-- countOpenRowChildrenRecursively from table.go. -/
def countOpenRowChildrenRecursively : Row → Nat
  | .node _ ch op cs => 1 + (if ch && op then countOpenForest cs else 0)

/-- Sum of countOpenRowChildrenRecursively over a forest (the loop in
SyncToModel that accumulates rowCount over the roots). -/
def countOpenForest : Forest → Nat
  | .nil => 0
  | .cons r rs => countOpenRowChildrenRecursively r + countOpenForest rs

end

mutual

/-- buildRowCacheEntry from table.go. The Go version writes into the
pre-allocated rowCache slice at consecutive indices starting at index and
returns the next free index; here the written segment is returned as a list
together with that next index. -/
def buildRowCacheEntry (p : TableParams) (filteredNil : Bool) :
    Row → Int → Nat → Nat → List CacheEntry × Nat
  | .node u ch op cs, parentIndex, index, depth =>
    let entry : CacheEntry :=
      { row := Row.node u ch op cs, parent := parentIndex, depth := depth,
        height := heightForColumns p (Row.node u ch op cs) index depth }
    if filteredNil && ch && op then
      let rest := buildRowCacheForest p filteredNil cs (Int.ofNat index) (index + 1) (depth + 1)
      (entry :: rest.1, rest.2)
    else
      ([entry], index + 1)

/-- The loop of SyncToModel over a list of rows, threading the next free
index through successive buildRowCacheEntry calls. -/
def buildRowCacheForest (p : TableParams) (filteredNil : Bool) :
    Forest → Int → Nat → Nat → List CacheEntry × Nat
  | .nil, _, index, _ => ([], index)
  | .cons r rs, parentIndex, index, depth =>
    let first := buildRowCacheEntry p filteredNil r parentIndex index depth
    let rest := buildRowCacheForest p filteredNil rs parentIndex first.2 depth
    (first.1 ++ rest.1, rest.2)

end

/-- RootRows from table.go: the filtered rows when a filter is active,
otherwise the model root rows. -/
def RootRows (t : TableState) : Forest :=
  match t.filteredRows with
  | some fr => fr
  | none => t.roots

/-- The row cache that SyncToModel computes. -/
def rowCacheOf (t : TableState) : List CacheEntry :=
  (buildRowCacheForest t.params t.filteredRows.isNone (RootRows t) (-1) 0 0).1

/-- SyncToModel from table.go (the sizing and redraw side effects are
display-only and have no counterpart in this state). -/
def SyncToModel (t : TableState) : TableState :=
  { t with rowCache := rowCacheOf t, selNeedsPrune := true }

/-- notifyOfSelectionChange from table.go: invoking the selection-changed
callback is modelled by incrementing a counter. -/
def notifyOfSelectionChange (t : TableState) : TableState :=
  { t with notifyCount := t.notifyCount + 1 }

instance : Inhabited Row := ⟨Row.node 0 false false Forest.nil⟩

instance : Inhabited CacheEntry := ⟨{ row := default, parent := -1, depth := 0, height := 0 }⟩

/-- PruneSelectionOfUndisclosedNodes from table.go. Note that the Go code
sets needsNotify whenever some cache row is not in the selection map, not
when a selection entry is dropped. -/
def PruneSelectionOfUndisclosedNodes (t : TableState) : TableState :=
  if !t.selNeedsPrune then t
  else
    let t := { t with selNeedsPrune := false }
    if t.selMap.card = 0 then t
    else
      let selMap := ((t.rowCache.filter (fun e => decide (e.row.uuid ∈ t.selMap))).map
        (fun e => e.row.uuid)).toFinset
      let needsNotify := t.rowCache.any (fun e => !decide (e.row.uuid ∈ t.selMap))
      let t := { t with selMap := selMap }
      if needsNotify then notifyOfSelectionChange t else t

/-- The loop of IsRowOrAnyParentSelected from table.go, walking parent
indices. The Go loop terminates because parent indices strictly decrease
in a well-formed cache; the fuel argument makes the function total. -/
def isRowOrAnyParentSelectedLoop (t : TableState) : Nat → Int → Bool
  | 0, _ => false
  | fuel + 1, index =>
    if 0 ≤ index then
      match t.rowCache[index.toNat]? with
      | some e =>
        if e.row.uuid ∈ t.selMap then true
        else isRowOrAnyParentSelectedLoop t fuel e.parent
      | none => false
    else false

/-- IsRowOrAnyParentSelected from table.go. -/
def IsRowOrAnyParentSelected (t : TableState) (index : Int) : Bool :=
  if index < 0 ∨ (t.rowCache.length : Int) ≤ index then false
  else isRowOrAnyParentSelectedLoop t (t.rowCache.length + 1) index

/-- The filter condition of the SelectedRows loop in table.go. -/
def selectedRowFilter (t : TableState) (minimal : Bool) (e : CacheEntry) : Bool :=
  decide (e.row.uuid ∈ t.selMap) &&
    (!minimal || decide (e.parent = -1) || !(IsRowOrAnyParentSelected t e.parent))

/-- SelectedRows from table.go; returns the rows together with the state
left behind by the pruning it performs first. -/
def SelectedRows (t : TableState) (minimal : Bool) : List Row × TableState :=
  let t := PruneSelectionOfUndisclosedNodes t
  if t.selMap.card = 0 then ([], t)
  else ((t.rowCache.filter (selectedRowFilter t minimal)).map (fun e => e.row), t)

/-- HasSelection from table.go. -/
def HasSelection (t : TableState) : Bool × TableState :=
  let t := PruneSelectionOfUndisclosedNodes t
  (decide (t.selMap.card ≠ 0), t)

/-- SelectionCount from table.go. -/
def SelectionCount (t : TableState) : Nat × TableState :=
  let t := PruneSelectionOfUndisclosedNodes t
  (t.selMap.card, t)

/-- ClearSelection from table.go. -/
def ClearSelection (t : TableState) : TableState :=
  if t.selMap.card = 0 then t
  else
    notifyOfSelectionChange
      { t with selMap := ∅, selNeedsPrune := false, selAnchor := 0 }

/-- SelectAll from table.go: the loop inserts every cached row and makes the
first row whose UUID becomes the anchor while the anchor is still zero. -/
def SelectAll (t : TableState) : TableState :=
  let res := t.rowCache.foldl
    (fun (acc : Finset Nat × Nat) e =>
      (insert e.row.uuid acc.1, if acc.2 = 0 then e.row.uuid else acc.2))
    ((∅ : Finset Nat), 0)
  notifyOfSelectionChange
    { t with selMap := res.1, selNeedsPrune := false, selAnchor := res.2 }

/-- The body of the loop in SelectRange (and, after its bounds check, of the
loop in SelectByIndex): select the row at a cache index, flag the selection
for pruning, and make the row the anchor when no anchor exists. -/
def selectCacheIndex (t : TableState) (i : Nat) : TableState :=
  let id := (t.rowCache.getD i default).row.uuid
  { t with selMap := insert id t.selMap, selNeedsPrune := true,
           selAnchor := if t.selAnchor = 0 then id else t.selAnchor }

/-- One iteration of the SelectByIndex loop from table.go. -/
def selectIndexStep (t : TableState) (index : Int) : TableState :=
  if 0 ≤ index ∧ index < (t.rowCache.length : Int) then selectCacheIndex t index.toNat
  else t

/-- SelectByIndex from table.go. -/
def SelectByIndex (t : TableState) (indexes : List Int) : TableState :=
  notifyOfSelectionChange (indexes.foldl selectIndexStep t)

/-- SelectRange from table.go. -/
def SelectRange (t : TableState) (start endIdx : Int) : TableState :=
  let start := max start 0
  let endIdx := min endIdx ((t.rowCache.length : Int) - 1)
  if start > endIdx then t
  else
    notifyOfSelectionChange
      ((List.range' start.toNat (endIdx.toNat + 1 - start.toNat)).foldl selectCacheIndex t)

/-- The body of the loop in DeselectRange (and, after its bounds check, of
the loop in DeselectByIndex). -/
def deselectCacheIndex (t : TableState) (i : Nat) : TableState :=
  { t with selMap := t.selMap.erase (t.rowCache.getD i default).row.uuid }

/-- One iteration of the DeselectByIndex loop from table.go. -/
def deselectIndexStep (t : TableState) (index : Int) : TableState :=
  if 0 ≤ index ∧ index < (t.rowCache.length : Int) then deselectCacheIndex t index.toNat
  else t

/-- DeselectByIndex from table.go. -/
def DeselectByIndex (t : TableState) (indexes : List Int) : TableState :=
  notifyOfSelectionChange (indexes.foldl deselectIndexStep t)

/-- DeselectRange from table.go. -/
def DeselectRange (t : TableState) (start endIdx : Int) : TableState :=
  let start := max start 0
  let endIdx := min endIdx ((t.rowCache.length : Int) - 1)
  if start > endIdx then t
  else
    notifyOfSelectionChange
      ((List.range' start.toNat (endIdx.toNat + 1 - start.toNat)).foldl deselectCacheIndex t)

/-- SetSelectionMap from table.go (copySelMap is a value copy here). -/
def SetSelectionMap (t : TableState) (selMap : Finset Nat) : TableState :=
  notifyOfSelectionChange { t with selMap := selMap, selNeedsPrune := true }

/-- SetRootRows from table.go; Model.SetRootRows replaces the model roots. -/
def SetRootRows (t : TableState) (rows : Forest) : TableState :=
  SyncToModel
    { t with filteredRows := none, roots := rows,
             selMap := ∅, selNeedsPrune := false, selAnchor := 0 }

/-- Mouse modifiers relevant to DefaultMouseDown selection handling. -/
structure Modifiers where
  shift : Bool
  discontiguous : Bool

/-- The anchor-index scan at the start of the shift branch of
DefaultMouseDown: -1 when the anchor is zero or not in the cache. -/
def findSelAnchorIndex (t : TableState) : Int :=
  if t.selAnchor ≠ 0 then
    match t.rowCache.findIdx? (fun e => e.row.uuid == t.selAnchor) with
    | some i => (i : Int)
    | none => -1
  else -1

/-- The row-selection portion of DefaultMouseDown from table.go (lines
1014-1053), given the cache index of the clicked row. -/
def DefaultMouseDownRowSelect (t : TableState) (row : Nat) (mod : Modifiers) : TableState :=
  let id := (t.rowCache.getD row default).row.uuid
  if mod.shift then
    let selAnchorIndex := findSelAnchorIndex t
    if selAnchorIndex ≠ -1 then
      let lo := min selAnchorIndex.toNat row
      let hi := max selAnchorIndex.toNat row
      let m' := (List.range' lo (hi + 1 - lo)).foldl
        (fun m i => insert (t.rowCache.getD i default).row.uuid m) t.selMap
      notifyOfSelectionChange { t with selMap := m' }
    else if id ∉ t.selMap then
      notifyOfSelectionChange { t with selMap := {id}, selAnchor := id }
    else t
  else if mod.discontiguous then
    notifyOfSelectionChange
      { t with selMap := if id ∈ t.selMap then t.selMap.erase id else insert id t.selMap }
  else if id ∈ t.selMap then
    { t with lastSel := id }
  else
    notifyOfSelectionChange { t with selMap := {id}, selAnchor := id }

mutual

/-- Set the IsOpen flag of the row with the given UUID (SetOpen on the row
captured by the disclosure hit-rect closure, identified here by UUID). -/
def setOpenByIdRow (u : Nat) (b : Bool) : Row → Row
  | .node v ch op cs => Row.node v ch (if v = u then b else op) (setOpenByIdForest u b cs)

/-- setOpenByIdRow mapped over a forest. -/
def setOpenByIdForest (u : Nat) (b : Bool) : Forest → Forest
  | .nil => .nil
  | .cons r rs => .cons (setOpenByIdRow u b r) (setOpenByIdForest u b rs)

end

mutual

/-- Find the row with the given UUID in pre-order over the full tree. -/
def findRowByIdRow (u : Nat) : Row → Option Row
  | .node v ch op cs =>
    if v = u then some (Row.node v ch op cs) else findRowByIdForest u cs

/-- findRowByIdRow over a forest, first match wins. -/
def findRowByIdForest (u : Nat) : Forest → Option Row
  | .nil => none
  | .cons r rs =>
    match findRowByIdRow u r with
    | some r' => some r'
    | none => findRowByIdForest u rs

end

/-- The handler installed by newTableHitRect in table.go: flip the open flag
of the clicked row, resync, and prune the selection when collapsing. The
clicked row is identified by its UUID. -/
def newTableHitRectHandler (t : TableState) (u : Nat) : TableState :=
  match findRowByIdForest u t.roots with
  | none => t
  | some r =>
    let opn := !r.isOpen
    let t := { t with roots := setOpenByIdForest u opn t.roots }
    let t := SyncToModel t
    if !opn then PruneSelectionOfUndisclosedNodes t else t

/-- The clamp-pad-inflate step applied to the preferred width of one cell in
the row loop of SizeColumnsToFit. -/
def adjustedPrefWidth (p : TableParams) (e : CacheEntry) (rowIdx col : Nat)
    (c : ColumnInfo) : Rat :=
  let prefW := (p.cellPref e.row rowIdx col 0).1
  let prefW :=
    if c.AutoMinimum > 0 ∧ prefW < c.AutoMinimum then c.AutoMinimum
    else if c.AutoMaximum > 0 ∧ prefW > c.AutoMaximum then c.AutoMaximum
    else prefW
  let prefW := prefW + p.PaddingLeft + p.PaddingRight
  if c.ID = p.HierarchyColumnID then
    prefW + p.PaddingLeft + p.HierarchyIndent * ((e.depth : Rat) + 1)
  else prefW

/-- The inner column loop of SizeColumnsToFit for one cached row: raise each
accumulated width to the adjusted preferred width when smaller. -/
def fitRowPass (p : TableParams) (e : CacheEntry) (rowIdx : Nat) :
    Nat → List ColumnInfo → List Rat → List Rat
  | _, _, [] => []
  | _, [], cur => cur
  | col, c :: cs, cur :: rest =>
    (if cur < adjustedPrefWidth p e rowIdx col c then adjustedPrefWidth p e rowIdx col c
     else cur) :: fitRowPass p e rowIdx (col + 1) cs rest

/-- The columns of a table with every current width zeroed, as at the start
of SizeColumnsToFit. -/
def zeroedParams (p : TableParams) : TableParams :=
  { p with Columns := p.Columns.map (fun (c : ColumnInfo) => { c with Current := 0 }) }

/-- SizeColumnsToFit from table.go (the optional frame adjustment is
display-only and not modelled). -/
def SizeColumnsToFit (t : TableState) : TableState :=
  let current := t.params.Columns.map (fun c => max c.Minimum 0)
  let zeroed := zeroedParams t.params
  let current := t.rowCache.enum.foldl
    (fun (cur : List Rat) (q : Nat × CacheEntry) => fitRowPass zeroed q.2 q.1 0 zeroed.Columns cur) current
  let newCols :=
    List.zipWith (fun (c : ColumnInfo) (w : Rat) => { c with Current := w }) t.params.Columns current
  let newParams := { t.params with Columns := newCols }
  let newCache := t.rowCache.enum.map
    (fun (q : Nat × CacheEntry) =>
      { q.2 with height := heightForColumns newParams q.2.row q.1 q.2.depth })
  { t with params := newParams, rowCache := newCache }

/-- Scheduling state for the debounced operations: the table, the two
awaiting flags from table.go, and counters for the tasks currently sitting
in the deferred-task queue for each operation. -/
structure SchedState where
  table : TableState
  awaitingSyncToModel : Bool
  awaitingSizeColumnsToFit : Bool
  pendingSync : Nat
  pendingFit : Nat

/-- EventuallySyncToModel from table.go: schedule a deferred SyncToModel
unless one is already awaiting. -/
def EventuallySyncToModel (s : SchedState) : SchedState :=
  if !s.awaitingSyncToModel then
    { s with awaitingSyncToModel := true, pendingSync := s.pendingSync + 1 }
  else s

/-- EventuallySizeColumnsToFit from table.go: schedule a deferred
SizeColumnsToFit unless one is already awaiting. -/
def EventuallySizeColumnsToFit (s : SchedState) : SchedState :=
  if !s.awaitingSizeColumnsToFit then
    { s with awaitingSizeColumnsToFit := true, pendingFit := s.pendingFit + 1 }
  else s

/-- The deferred task queued by EventuallySyncToModel runs: SyncToModel,
then clear the awaiting flag. -/
def runPendingSync (s : SchedState) : SchedState :=
  { s with table := SyncToModel s.table, awaitingSyncToModel := false,
           pendingSync := s.pendingSync - 1 }

/-- The deferred task queued by EventuallySizeColumnsToFit runs. -/
def runPendingFit (s : SchedState) : SchedState :=
  { s with table := SizeColumnsToFit s.table, awaitingSizeColumnsToFit := false,
           pendingFit := s.pendingFit - 1 }

/-- Events on the scheduling state: a call to either Eventually function, or
the execution of a queued task (possible only when one is queued). -/
inductive SchedStep : SchedState → SchedState → Prop where
  | callSync (s : SchedState) : SchedStep s (EventuallySyncToModel s)
  | callFit (s : SchedState) : SchedStep s (EventuallySizeColumnsToFit s)
  | fireSync (s : SchedState) (h : 0 < s.pendingSync) : SchedStep s (runPendingSync s)
  | fireFit (s : SchedState) (h : 0 < s.pendingFit) : SchedStep s (runPendingFit s)

/-- States reachable from a quiescent state (nothing awaiting, nothing
queued) by any sequence of calls and task executions. -/
inductive SchedReachable : SchedState → Prop where
  | init (s : SchedState) (h1 : s.awaitingSyncToModel = false)
      (h2 : s.awaitingSizeColumnsToFit = false) (h3 : s.pendingSync = 0)
      (h4 : s.pendingFit = 0) : SchedReachable s
  | step (s s' : SchedState) (h : SchedReachable s) (hs : SchedStep s s') : SchedReachable s'

mutual

/-- Modelled from the spec: the pre-order flattening of the open subtrees,
namely a row followed by the flattening of its children exactly when it can
have children and is open. -/
def openFlattenRow : Row → List Row
  | .node u ch op cs =>
    Row.node u ch op cs :: (if ch && op then openFlattenForest cs else [])

/-- openFlattenRow over each tree of a forest, in order. -/
def openFlattenForest : Forest → List Row
  | .nil => []
  | .cons r rs => openFlattenRow r ++ openFlattenForest rs

end

mutual

/-- Every UUID of a tree, in full pre-order (open or not). -/
def uuidsRow : Row → List Nat
  | .node u _ _ cs => u :: uuidsForest cs

/-- Every UUID of a forest, in full pre-order. -/
def uuidsForest : Forest → List Nat
  | .nil => []
  | .cons r rs => uuidsRow r ++ uuidsForest rs

end

/-- Simultaneous induction over the mutually inductive rows and forests. -/
theorem row_forest_induction (P : Row → Prop) (Q : Forest → Prop)
    (hnode : ∀ u ch op cs, Q cs → P (Row.node u ch op cs))
    (hnil : Q Forest.nil)
    (hcons : ∀ r rs, P r → Q rs → Q (Forest.cons r rs)) :
    (∀ r, P r) ∧ (∀ f, Q f) :=
  ⟨fun r => Row.rec hnode hnil hcons r, fun f => Forest.rec hnode hnil hcons f⟩

@[simp] theorem Row.uuid_node (u : Nat) (ch op : Bool) (cs : Forest) :
    (Row.node u ch op cs).uuid = u := rfl

@[simp] theorem Row.canHaveChildren_node (u : Nat) (ch op : Bool) (cs : Forest) :
    (Row.node u ch op cs).canHaveChildren = ch := rfl

@[simp] theorem Row.isOpen_node (u : Nat) (ch op : Bool) (cs : Forest) :
    (Row.node u ch op cs).isOpen = op := rfl

@[simp] theorem Row.children_node (u : Nat) (ch op : Bool) (cs : Forest) :
    (Row.node u ch op cs).children = cs := rfl

@[simp] theorem Forest.toList_nil : Forest.nil.toList = [] := rfl

@[simp] theorem Forest.toList_cons (r : Row) (rs : Forest) :
    (Forest.cons r rs).toList = r :: rs.toList := rfl

theorem buildRowCacheForest_nil (pm : TableParams) (fn : Bool) (p : Int) (i d : Nat) :
    buildRowCacheForest pm fn Forest.nil p i d = ([], i) := rfl

theorem buildRowCacheForest_cons (pm : TableParams) (fn : Bool) (r : Row) (rs : Forest)
    (p : Int) (i d : Nat) :
    buildRowCacheForest pm fn (Forest.cons r rs) p i d =
      ((buildRowCacheEntry pm fn r p i d).1 ++
        (buildRowCacheForest pm fn rs p (buildRowCacheEntry pm fn r p i d).2 d).1,
       (buildRowCacheForest pm fn rs p (buildRowCacheEntry pm fn r p i d).2 d).2) := rfl

theorem buildRowCacheEntry_false (pm : TableParams) (u : Nat) (ch op : Bool) (cs : Forest)
    (p : Int) (i d : Nat) :
    buildRowCacheEntry pm false (Row.node u ch op cs) p i d =
      ([{ row := Row.node u ch op cs, parent := p, depth := d,
          height := heightForColumns pm (Row.node u ch op cs) i d }], i + 1) := by
  simp [buildRowCacheEntry]

/-- In filtered mode buildRowCacheEntry never recurses, so the loop of
SyncToModel lays the supplied rows out flat, all with the parent index and
depth it was given. -/
theorem buildRowCacheForest_filtered (pm : TableParams) :
    ∀ (f : Forest) (p : Int) (i d : Nat),
      ((buildRowCacheForest pm false f p i d).1.map (fun e => e.row) = f.toList) ∧
      (∀ e ∈ (buildRowCacheForest pm false f p i d).1, e.parent = p ∧ e.depth = d)
  | .nil, p, i, d => by simp [buildRowCacheForest_nil]
  | .cons (.node u ch op cs) rs, p, i, d => by
    have ih := buildRowCacheForest_filtered pm rs p (i + 1) d
    rw [buildRowCacheForest_cons, buildRowCacheEntry_false]
    refine ⟨?_, ?_⟩
    · simpa using ih.1
    · intro e he
      simp only [List.cons_append, List.nil_append, List.mem_cons] at he
      rcases he with he | he
      · subst he; exact ⟨rfl, rfl⟩
      · exact ih.2 e he

/-- A table state with no rows, no columns and no selection, from which the
concrete tables of the witnesses below are built. -/
def emptyParams : TableParams :=
  { HierarchyColumnID := 0, HierarchyIndent := 0, MinimumRowHeight := 0,
    PaddingTop := 0, PaddingLeft := 0, PaddingBottom := 0, PaddingRight := 0,
    Columns := [], cellPref := fun _ _ _ _ => (0, 0) }

def emptyTable : TableState :=
  { params := emptyParams, roots := Forest.nil,
    filteredRows := none, rowCache := [], selMap := ∅, selAnchor := 0,
    lastSel := 0, selNeedsPrune := false, notifyCount := 0 }

/-- A childless row with the given UUID. -/
def exRow (u : Nat) : Row := Row.node u false false Forest.nil

/-- A root-level cache entry for a childless row. -/
def exEntry (u : Nat) : CacheEntry :=
  { row := exRow u, parent := -1, depth := 0, height := 0 }

/-- C8: with a non-nil filtered row list the rebuilt row cache is the
filtered flat list in order and every entry has parent index -1 and depth 0,
regardless of open flags and children. -/
theorem filtered_cache_is_flat (t : TableState) (F : Forest)
    (h : t.filteredRows = some F) :
    ((rowCacheOf t).map (fun e => e.row) = F.toList) ∧
    (∀ e ∈ rowCacheOf t, e.parent = -1 ∧ e.depth = 0) := by
  have hc : rowCacheOf t = (buildRowCacheForest t.params false F (-1) 0 0).1 := by
    simp [rowCacheOf, RootRows, h]
  rw [hc]
  exact buildRowCacheForest_filtered t.params F (-1) 0 0

/-- A forest holding an open row with a child, used as a filtered list. -/
def filteredForest : Forest :=
  Forest.cons (Row.node 1 true true (Forest.cons (exRow 2) Forest.nil))
    (Forest.cons (exRow 3) Forest.nil)

/-- A filtered table whose filtered list contains an open row with a child,
exercising the flat filtered cache. -/
def filteredTable : TableState :=
  { emptyTable with filteredRows := some filteredForest }

theorem filtered_cache_is_flat_witness :
    filteredTable.filteredRows = some filteredForest ∧
    (((rowCacheOf filteredTable).map (fun e => e.row) = filteredForest.toList) ∧
    (∀ e ∈ rowCacheOf filteredTable, e.parent = -1 ∧ e.depth = 0)) :=
  ⟨rfl, filtered_cache_is_flat filteredTable filteredForest rfl⟩

/-- The state on which SetRootRows invokes SyncToModel: filter cleared,
model roots replaced, selection emptied, anchor zeroed. -/
def rootsReplacedState (t : TableState) (rows : Forest) : TableState :=
  { t with filteredRows := none, roots := rows, selMap := ∅,
           selNeedsPrune := false, selAnchor := 0 }

/-- C10: SetRootRows clears the filtered list, empties the selection, resets
the anchor, rebuilds the cache from the new roots, and fires no
selection-changed notification. -/
theorem setRootRows_resets (t : TableState) (rows : Forest) :
    (SetRootRows t rows).filteredRows = none ∧
    (SetRootRows t rows).selMap = ∅ ∧
    (SetRootRows t rows).selAnchor = 0 ∧
    (SetRootRows t rows).rowCache = rowCacheOf (rootsReplacedState t rows) ∧
    (SetRootRows t rows).notifyCount = t.notifyCount :=
  ⟨rfl, rfl, rfl, rfl, rfl⟩

/-- A table whose cache holds two rows but whose selection holds only the
first: pruning removes nothing, yet the code notifies. -/
def pruneBugTable : TableState :=
  { emptyTable with
    roots := Forest.cons (exRow 1) (Forest.cons (exRow 2) Forest.nil),
    rowCache := [exEntry 1, exEntry 2], selMap := {1}, selNeedsPrune := true }

/-- C3: the code contradicts the claim: every selected identity (UUID 1) is
still present in the row cache, so pruning removes nothing, yet
PruneSelectionOfUndisclosedNodes fires the selection-changed notification
because some cache row (UUID 2) is outside the selection. -/
theorem pruneNotifiesWithoutRemoval :
    (PruneSelectionOfUndisclosedNodes pruneBugTable).selMap = pruneBugTable.selMap ∧
    (PruneSelectionOfUndisclosedNodes pruneBugTable).notifyCount =
      pruneBugTable.notifyCount + 1 := by
  constructor
  · decide
  · decide

theorem selectCacheIndex_notifyCount (t : TableState) (i : Nat) :
    (selectCacheIndex t i).notifyCount = t.notifyCount := rfl

theorem selectIndexStep_notifyCount (t : TableState) (i : Int) :
    (selectIndexStep t i).notifyCount = t.notifyCount := by
  unfold selectIndexStep
  split <;> rfl

theorem deselectCacheIndex_notifyCount (t : TableState) (i : Nat) :
    (deselectCacheIndex t i).notifyCount = t.notifyCount := rfl

theorem deselectIndexStep_notifyCount (t : TableState) (i : Int) :
    (deselectIndexStep t i).notifyCount = t.notifyCount := by
  unfold deselectIndexStep
  split <;> rfl

theorem foldl_notifyCount {α : Type} (step : TableState → α → TableState)
    (h : ∀ t a, (step t a).notifyCount = t.notifyCount) :
    ∀ (l : List α) (t : TableState), (l.foldl step t).notifyCount = t.notifyCount
  | [], _ => rfl
  | a :: l, t => by rw [List.foldl_cons, foldl_notifyCount step h l, h]

/-- C5 counterexample: SelectByIndex with a single out-of-range index on an
empty table leaves the selected set unchanged yet fires a notification. -/
theorem selectByIndexNotifiesUnchanged :
    (SelectByIndex emptyTable [5]).selMap = emptyTable.selMap ∧
    (SelectByIndex emptyTable [5]).notifyCount = emptyTable.notifyCount + 1 := by
  constructor
  · decide
  · decide

/-- C5 (amended): each mutating selection operation fires the notification
exactly once per call whether or not the selected set changed, except that
ClearSelection with an already-empty selection fires none, and SelectRange
and DeselectRange fire none when the clamped range is empty. -/
theorem mutatingOpsNotifyOncePerCall :
    (∀ (t : TableState) (idxs : List Int),
      (SelectByIndex t idxs).notifyCount = t.notifyCount + 1) ∧
    (∀ (t : TableState) (idxs : List Int),
      (DeselectByIndex t idxs).notifyCount = t.notifyCount + 1) ∧
    (∀ t : TableState, (SelectAll t).notifyCount = t.notifyCount + 1) ∧
    (∀ (t : TableState) (m : Finset Nat),
      (SetSelectionMap t m).notifyCount = t.notifyCount + 1) ∧
    (∀ t : TableState, (ClearSelection t).notifyCount =
      t.notifyCount + (if t.selMap.card = 0 then 0 else 1)) ∧
    (∀ (t : TableState) (start endIdx : Int), (SelectRange t start endIdx).notifyCount =
      t.notifyCount +
        (if max start 0 > min endIdx ((t.rowCache.length : Int) - 1) then 0 else 1)) ∧
    (∀ (t : TableState) (start endIdx : Int), (DeselectRange t start endIdx).notifyCount =
      t.notifyCount +
        (if max start 0 > min endIdx ((t.rowCache.length : Int) - 1) then 0 else 1)) := by
  refine ⟨?_, ?_, ?_, ?_, ?_, ?_, ?_⟩
  · intro t idxs
    show (notifyOfSelectionChange (idxs.foldl selectIndexStep t)).notifyCount = _
    rw [notifyOfSelectionChange, foldl_notifyCount selectIndexStep selectIndexStep_notifyCount]
  · intro t idxs
    show (notifyOfSelectionChange (idxs.foldl deselectIndexStep t)).notifyCount = _
    rw [notifyOfSelectionChange, foldl_notifyCount deselectIndexStep deselectIndexStep_notifyCount]
  · intro t
    rfl
  · intro t m
    rfl
  · intro t
    unfold ClearSelection
    split
    · simp
    · simp [notifyOfSelectionChange]
  · intro t start endIdx
    by_cases hc : max start 0 > min endIdx ((t.rowCache.length : Int) - 1)
    · simp [SelectRange, hc]
    · simp only [SelectRange, hc, if_neg, if_false, notifyOfSelectionChange]
      rw [foldl_notifyCount selectCacheIndex selectCacheIndex_notifyCount]
  · intro t start endIdx
    by_cases hc : max start 0 > min endIdx ((t.rowCache.length : Int) - 1)
    · simp [DeselectRange, hc]
    · simp only [DeselectRange, hc, if_neg, if_false, notifyOfSelectionChange]
      rw [foldl_notifyCount deselectCacheIndex deselectCacheIndex_notifyCount]

theorem foldl_insert_union (f : Nat → Nat) :
    ∀ (l : List Nat) (s : Finset Nat),
      l.foldl (fun m i => insert (f i) m) s = s ∪ (l.map f).toFinset
  | [], s => by simp
  | a :: l, s => by
    rw [List.foldl_cons, foldl_insert_union f l]
    ext x
    simp only [Finset.mem_union, Finset.mem_insert, List.mem_toFinset, List.map_cons,
      List.mem_cons, List.mem_map]
    tauto

/-- A three-row table whose anchor is the first row and whose prior
selection holds the third row. -/
def shiftClickTable : TableState :=
  { emptyTable with
    rowCache := [exEntry 1, exEntry 2, exEntry 3],
    selMap := {3}, selAnchor := 1 }

/-- C2 counterexample: with the anchor at cache index 0, a shift-click on
cache index 1 must, per the claim, leave exactly the UUIDs of indices 0 and
1 selected, but the prior selection of the third row (outside the interval)
survives. -/
theorem shiftClickKeepsOutsideSelection :
    (DefaultMouseDownRowSelect shiftClickTable 1
      { shift := true, discontiguous := false }).selMap ≠ ({1, 2} : Finset Nat) := by
  decide

/-- The selection map produced by the shift branch of DefaultMouseDown when
the anchor sits at cache index A and the click at cache index B. -/
def shiftRangeSelMap (t : TableState) (A B : Nat) : Finset Nat :=
  (List.range' (min A B) (max A B + 1 - min A B)).foldl
    (fun m' i => insert (t.rowCache.getD i default).row.uuid m') t.selMap

/-- C2 (amended): with the anchor present in the cache at index A, a
shift-click on cache index B selects the union of the prior selection with
the UUIDs of the cache rows at indices in the closed interval from min A B
to max A B; prior selections outside that interval are retained, and one
notification fires. -/
theorem shiftClickAddsInterval (t : TableState) (A B : Nat) (m : Modifiers)
    (hanchor : t.selAnchor ≠ 0)
    (hA : t.rowCache.findIdx? (fun e => e.row.uuid == t.selAnchor) = some A)
    (hB : B < t.rowCache.length) (hs : m.shift = true) :
    (∀ x, x ∈ (DefaultMouseDownRowSelect t B m).selMap ↔
      (x ∈ t.selMap ∨ ∃ i, min A B ≤ i ∧ i ≤ max A B ∧
        ∃ e, t.rowCache[i]? = some e ∧ e.row.uuid = x)) ∧
    (DefaultMouseDownRowSelect t B m).notifyCount = t.notifyCount + 1 := by
  have hAlen : A < t.rowCache.length := (List.findIdx?_eq_some_iff_getElem.mp hA).1
  have hfind : findSelAnchorIndex t = (A : Int) := by
    unfold findSelAnchorIndex
    rw [if_pos hanchor, hA]
  have hne : ((A : Nat) : Int) ≠ -1 := by omega
  have hsel : DefaultMouseDownRowSelect t B m =
      notifyOfSelectionChange { t with selMap := shiftRangeSelMap t A B } := by
    unfold DefaultMouseDownRowSelect
    rw [hs, if_pos rfl, hfind, if_pos hne]
    unfold shiftRangeSelMap
    simp [Int.toNat_natCast]
  rw [hsel]
  constructor
  · intro x
    show x ∈ shiftRangeSelMap t A B ↔ _
    unfold shiftRangeSelMap
    rw [foldl_insert_union]
    simp only [Finset.mem_union, List.mem_toFinset, List.mem_map, List.mem_range']
    constructor
    · rintro (hx | ⟨i, ⟨j, hj, hij⟩, hfx⟩)
      · exact Or.inl hx
      · refine Or.inr ⟨i, by omega, by omega, ?_⟩
        have hilen : i < t.rowCache.length := by omega
        refine ⟨t.rowCache.get ⟨i, hilen⟩, ?_, ?_⟩
        · simp
        · rw [← hfx]
          simp [List.getD_eq_getElem?_getD, List.getElem?_eq_getElem hilen]
    · rintro (hx | ⟨i, hlo, hhi, e, he, hex⟩)
      · exact Or.inl hx
      · refine Or.inr ⟨i, ⟨i - min A B, by omega, by omega⟩, ?_⟩
        rw [List.getD_eq_getElem?_getD, he]
        simpa using hex
  · rfl

theorem shiftClickAddsInterval_witness :
    shiftClickTable.selAnchor ≠ 0 ∧
    ((∀ x, x ∈ (DefaultMouseDownRowSelect shiftClickTable 1
        { shift := true, discontiguous := false }).selMap ↔
      (x ∈ shiftClickTable.selMap ∨ ∃ i, min 0 1 ≤ i ∧ i ≤ max 0 1 ∧
        ∃ e, shiftClickTable.rowCache[i]? = some e ∧ e.row.uuid = x)) ∧
    (DefaultMouseDownRowSelect shiftClickTable 1
        { shift := true, discontiguous := false }).notifyCount =
      shiftClickTable.notifyCount + 1) :=
  ⟨by decide,
   shiftClickAddsInterval shiftClickTable 0 1 { shift := true, discontiguous := false }
     (by decide) (by decide) (by decide) rfl⟩

theorem evsync_of_awaiting (u : SchedState) (hu : u.awaitingSyncToModel = true) :
    EventuallySyncToModel u = u := by
  simp [EventuallySyncToModel, hu]

theorem evfit_of_awaiting (u : SchedState) (hu : u.awaitingSizeColumnsToFit = true) :
    EventuallySizeColumnsToFit u = u := by
  simp [EventuallySizeColumnsToFit, hu]

/-- The inductive invariant of the debounce guards: a task is queued exactly
when the corresponding awaiting flag is set. -/
def schedInvariant (s : SchedState) : Prop :=
  (s.pendingSync = if s.awaitingSyncToModel then 1 else 0) ∧
  (s.pendingFit = if s.awaitingSizeColumnsToFit then 1 else 0)

theorem schedInvariant_step (s s' : SchedState) (hs : SchedStep s s')
    (ih : schedInvariant s) : schedInvariant s' := by
  obtain ⟨i1, i2⟩ := ih
  cases hs with
  | callSync =>
    by_cases ha : s.awaitingSyncToModel
    · rw [evsync_of_awaiting s ha]; exact ⟨i1, i2⟩
    · exact ⟨by simp [EventuallySyncToModel, ha] at i1 ⊢; omega,
        by simpa [EventuallySyncToModel, ha] using i2⟩
  | callFit =>
    by_cases ha : s.awaitingSizeColumnsToFit
    · rw [evfit_of_awaiting s ha]; exact ⟨i1, i2⟩
    · exact ⟨by simpa [EventuallySizeColumnsToFit, ha] using i1,
        by simp [EventuallySizeColumnsToFit, ha] at i2 ⊢; omega⟩
  | fireSync hp =>
    have ha : s.awaitingSyncToModel = true := by
      by_contra hc
      simp only [Bool.not_eq_true] at hc
      rw [hc] at i1; simp at i1; omega
    exact ⟨by simp [runPendingSync, i1, ha], by simpa [runPendingSync] using i2⟩
  | fireFit hp =>
    have ha : s.awaitingSizeColumnsToFit = true := by
      by_contra hc
      simp only [Bool.not_eq_true] at hc
      rw [hc] at i2; simp at i2; omega
    exact ⟨by simpa [runPendingFit] using i1, by simp [runPendingFit, i2, ha]⟩

/-- C9: on every state reachable from a quiescent one, at most one deferred
execution per operation is pending (the pending count is 1 exactly when the
corresponding awaiting flag is set), and a call made while the flag is set
changes nothing, so repeated calls collapse into a single pending run. -/
theorem eventuallyCallsCollapse (s : SchedState) (h : SchedReachable s) :
    (s.pendingSync = if s.awaitingSyncToModel then 1 else 0) ∧
    (s.pendingFit = if s.awaitingSizeColumnsToFit then 1 else 0) ∧
    s.pendingSync ≤ 1 ∧ s.pendingFit ≤ 1 ∧
    (s.awaitingSyncToModel = true → EventuallySyncToModel s = s) ∧
    (s.awaitingSizeColumnsToFit = true → EventuallySizeColumnsToFit s = s) := by
  have inv : schedInvariant s := by
    induction h with
    | init s h1 h2 h3 h4 => exact ⟨by simp [h1, h3], by simp [h2, h4]⟩
    | step s s' hr hs ih => exact schedInvariant_step s s' hs ih
  obtain ⟨i1, i2⟩ := inv
  refine ⟨i1, i2, ?_, ?_, evsync_of_awaiting s, evfit_of_awaiting s⟩
  · rw [i1]; split <;> omega
  · rw [i2]; split <;> omega

/-- A quiescent scheduling state over the empty table. -/
def quiescentSched : SchedState :=
  { table := emptyTable, awaitingSyncToModel := false, awaitingSizeColumnsToFit := false,
    pendingSync := 0, pendingFit := 0 }

theorem eventuallyCallsCollapse_witness :
    (quiescentSched.pendingSync = if quiescentSched.awaitingSyncToModel then 1 else 0) ∧
    (quiescentSched.pendingFit = if quiescentSched.awaitingSizeColumnsToFit then 1 else 0) ∧
    quiescentSched.pendingSync ≤ 1 ∧ quiescentSched.pendingFit ≤ 1 ∧
    (quiescentSched.awaitingSyncToModel = true →
      EventuallySyncToModel quiescentSched = quiescentSched) ∧
    (quiescentSched.awaitingSizeColumnsToFit = true →
      EventuallySizeColumnsToFit quiescentSched = quiescentSched) :=
  eventuallyCallsCollapse quiescentSched (SchedReachable.init quiescentSched rfl rfl rfl rfl)

theorem ite_lt_eq_max (w a : Rat) : (if w < a then a else w) = max w a := by
  rcases le_or_lt a w with h | h
  · rw [if_neg (not_lt.mpr h), max_eq_left h]
  · rw [if_pos h, max_eq_right (le_of_lt h)]

theorem fitRowPass_cons (p : TableParams) (e : CacheEntry) (i col0 : Nat) (c0 : ColumnInfo)
    (cs : List ColumnInfo) (w0 : Rat) (cur : List Rat) :
    fitRowPass p e i col0 (c0 :: cs) (w0 :: cur) =
      (if w0 < adjustedPrefWidth p e i col0 c0 then adjustedPrefWidth p e i col0 c0 else w0) ::
        fitRowPass p e i (col0 + 1) cs cur := rfl

theorem fitRowPass_getElem (p : TableParams) (e : CacheEntry) (i : Nat) :
    ∀ (cs : List ColumnInfo) (cur : List Rat) (col0 k : Nat) (c : ColumnInfo) (w : Rat),
      cs[k]? = some c → cur[k]? = some w →
      (fitRowPass p e i col0 cs cur)[k]? =
        some (max w (adjustedPrefWidth p e i (col0 + k) c))
  | [], cur, col0, k, c, w, hc, hw => by simp at hc
  | _ :: _, [], col0, k, c, w, hc, hw => by simp at hw
  | c0 :: cs, w0 :: cur, col0, 0, c, w, hc, hw => by
    simp only [List.getElem?_cons_zero, Option.some.injEq] at hc hw
    rw [fitRowPass_cons, List.getElem?_cons_zero, ite_lt_eq_max, hc, hw, Nat.add_zero]
  | c0 :: cs, w0 :: cur, col0, k + 1, c, w, hc, hw => by
    simp only [List.getElem?_cons_succ] at hc hw
    rw [fitRowPass_cons, List.getElem?_cons_succ,
      fitRowPass_getElem p e i cs cur (col0 + 1) k c w hc hw]
    have harith : col0 + 1 + k = col0 + (k + 1) := by omega
    rw [harith]

theorem fitFold_getElem (pZ : TableParams) :
    ∀ (rows : List (Nat × CacheEntry)) (cur : List Rat) (k : Nat) (c : ColumnInfo) (w : Rat),
      pZ.Columns[k]? = some c → cur[k]? = some w →
      (rows.foldl (fun (cur : List Rat) (q : Nat × CacheEntry) =>
          fitRowPass pZ q.2 q.1 0 pZ.Columns cur) cur)[k]? =
        some ((rows.map (fun q => adjustedPrefWidth pZ q.2 q.1 k c)).foldl max w)
  | [], cur, k, c, w, hc, hw => by simpa using hw
  | q :: rows, cur, k, c, w, hc, hw => by
    rw [List.foldl_cons, List.map_cons, List.foldl_cons]
    have hstep := fitRowPass_getElem pZ q.2 q.1 pZ.Columns cur 0 k c w hc hw
    rw [Nat.zero_add] at hstep
    exact fitFold_getElem pZ rows _ k c _ hc hstep

/-- Modelled from the spec: the fitted width of the column at position k is
the maximum over all cached rows of the clamped, padded and (for the
hierarchy column) indentation-inflated content preferred width, floored at
the user-resize minimum of the column (never below zero). -/
def specFitWidth (t : TableState) (k : Nat) (c : ColumnInfo) : Rat :=
  (t.rowCache.enum.map (fun q => adjustedPrefWidth t.params q.2 q.1 k c)).foldl max
    (max c.Minimum 0)

theorem sizeColumnsToFit_Columns (t : TableState) :
    (SizeColumnsToFit t).params.Columns =
      List.zipWith (fun (c : ColumnInfo) (w : Rat) => { c with Current := w }) t.params.Columns
        (t.rowCache.enum.foldl
          (fun (cur : List Rat) (q : Nat × CacheEntry) =>
            fitRowPass (zeroedParams t.params) q.2 q.1 0 (zeroedParams t.params).Columns cur)
          (t.params.Columns.map (fun (c : ColumnInfo) => max c.Minimum 0))) := rfl

theorem adjustedPrefWidth_zeroed (p : TableParams) (e : CacheEntry) (i k : Nat)
    (c : ColumnInfo) :
    adjustedPrefWidth (zeroedParams p) e i k { c with Current := 0 } =
      adjustedPrefWidth p e i k c := rfl

/-- Content preferred widths of the concrete scenario of the claim: column 0
widths per row are 10, 30, 20 and column 1 widths are 50, 5 (5 again for the
third row). -/
def fitExamplePref (i col : Nat) : Rat :=
  if col = 0 then ([10, 30, 20] : List Rat).getD i 0 else ([50, 5, 5] : List Rat).getD i 0

/-- A column with no padding, no auto bounds and zero minimum. -/
def fitExampleColumn (n : Int) : ColumnInfo :=
  { ID := n, Current := 0, Minimum := 0, Maximum := 0, AutoMinimum := 0, AutoMaximum := 0 }

/-- Parameters of the concrete two-column scenario. -/
def fitExampleParams : TableParams :=
  { emptyParams with
    HierarchyColumnID := -1,
    Columns := [fitExampleColumn 1, fitExampleColumn 2],
    cellPref := fun _ i col _ => (fitExamplePref i col, 0) }

/-- The concrete two-column three-row scenario of the claim. -/
def fitExampleTable : TableState :=
  { emptyTable with
    params := fitExampleParams,
    rowCache := [exEntry 1, exEntry 2, exEntry 3] }

/-- C7: SizeColumnsToFit sets the current width of the column at every
position k to the maximum over all cached rows of the adjusted (clamped,
padded, indentation-inflated) content preferred width, floored at the
user-resize minimum; on the concrete scenario of the claim the resulting
widths are 30 and 50. -/
theorem sizeColumnsToFit_spec :
    (∀ (t : TableState) (k : Nat) (c : ColumnInfo), t.params.Columns[k]? = some c →
      (SizeColumnsToFit t).params.Columns[k]? = some { c with Current := specFitWidth t k c }) ∧
    ((SizeColumnsToFit fitExampleTable).params.Columns.map (fun c => c.Current) =
      [(30 : Rat), 50]) := by
  constructor
  · intro t k c hc
    have hzc : (zeroedParams t.params).Columns[k]? = some { c with Current := 0 } := by
      have hcols : (zeroedParams t.params).Columns =
          t.params.Columns.map (fun (c : ColumnInfo) => { c with Current := 0 }) := rfl
      rw [hcols, List.getElem?_map, hc]
      rfl
    have hinit : (t.params.Columns.map (fun (c : ColumnInfo) => max c.Minimum 0))[k]? =
        some (max c.Minimum 0) := by
      rw [List.getElem?_map, hc]; rfl
    have hfold := fitFold_getElem (zeroedParams t.params) t.rowCache.enum
      (t.params.Columns.map (fun (c : ColumnInfo) => max c.Minimum 0)) k { c with Current := 0 }
      (max c.Minimum 0) hzc hinit
    have hspec : (t.rowCache.enum.map
        (fun q => adjustedPrefWidth (zeroedParams t.params) q.2 q.1 k { c with Current := 0 })).foldl
          max (max c.Minimum 0) = specFitWidth t k c := by
      unfold specFitWidth
      simp only [adjustedPrefWidth_zeroed]
    rw [hspec] at hfold
    rw [sizeColumnsToFit_Columns, List.getElem?_zipWith', hc, hfold]
    rfl
  · with_unfolding_all rfl

theorem sizeColumnsToFit_spec_witness :
    fitExampleTable.params.Columns[0]? = some (fitExampleColumn 1) ∧
    (SizeColumnsToFit fitExampleTable).params.Columns[0]? =
      some { ID := 1, Current := specFitWidth fitExampleTable 0 (fitExampleColumn 1),
             Minimum := 0, Maximum := 0, AutoMinimum := 0, AutoMaximum := 0 } :=
  ⟨rfl, sizeColumnsToFit_spec.1 fitExampleTable 0 (fitExampleColumn 1) rfl⟩

/-- The UUIDs of the rows currently present in the row cache, in order. -/
def cacheUUIDs (t : TableState) : List Nat :=
  t.rowCache.map (fun e => e.row.uuid)

theorem pruned_selMap_eq (t : TableState) :
    ((t.rowCache.filter (fun e => decide (e.row.uuid ∈ t.selMap))).map
      (fun e => e.row.uuid)).toFinset = t.selMap ∩ (cacheUUIDs t).toFinset := by
  ext x
  simp only [List.mem_toFinset, List.mem_map, List.mem_filter, Finset.mem_inter, cacheUUIDs,
    decide_eq_true_eq]
  constructor
  · rintro ⟨e, ⟨he, hsel⟩, rfl⟩
    exact ⟨hsel, ⟨e, he, rfl⟩⟩
  · rintro ⟨hsel, ⟨e, he, rfl⟩⟩
    exact ⟨e, ⟨he, hsel⟩, rfl⟩

theorem prune_state (t : TableState) (hp : t.selNeedsPrune = true) :
    (PruneSelectionOfUndisclosedNodes t).selMap = t.selMap ∩ (cacheUUIDs t).toFinset ∧
    (PruneSelectionOfUndisclosedNodes t).selNeedsPrune = false ∧
    (PruneSelectionOfUndisclosedNodes t).rowCache = t.rowCache := by
  unfold PruneSelectionOfUndisclosedNodes
  rw [hp]
  simp only [Bool.not_true, Bool.false_eq_true, if_false]
  by_cases hc : t.selMap.card = 0
  · rw [if_pos hc]
    have hemp : t.selMap = ∅ := Finset.card_eq_zero.mp hc
    simp [hemp]
  · rw [if_neg hc]
    split
    · exact ⟨pruned_selMap_eq t, rfl, rfl⟩
    · exact ⟨pruned_selMap_eq t, rfl, rfl⟩

theorem selectedRows_mem (t : TableState) (minimal : Bool) (r : Row)
    (hr : r ∈ (SelectedRows t minimal).1) :
    ∃ e, e ∈ (PruneSelectionOfUndisclosedNodes t).rowCache ∧ e.row = r ∧
      e.row.uuid ∈ (PruneSelectionOfUndisclosedNodes t).selMap := by
  unfold SelectedRows at hr
  by_cases hc : (PruneSelectionOfUndisclosedNodes t).selMap.card = 0
  · rw [if_pos hc] at hr
    simp at hr
  · rw [if_neg hc] at hr
    simp only [List.mem_map, List.mem_filter] at hr
    obtain ⟨e, ⟨he, hf⟩, rfl⟩ := hr
    refine ⟨e, he, rfl, ?_⟩
    unfold selectedRowFilter at hf
    have := Bool.and_elim_left hf
    simpa using this

/-- C4: after the cache rebuild of SyncToModel, the first query among
SelectionCount, HasSelection and SelectedRows triggers pruning, after which
everything reported reflects only rows still present in the cache: the
count is the size of the selection restricted to cached UUIDs, HasSelection
reports exactly its nonemptiness, the pruned flag is cleared, a UUID absent
from the cache is no longer selected, and SelectedRows returns only cached
rows and never a removed one. -/
theorem queriesReflectOnlyCachedRows (t0 : TableState) (u : Nat)
    (hu : u ∉ cacheUUIDs (SyncToModel t0)) :
    ((SelectionCount (SyncToModel t0)).1 =
      ((SyncToModel t0).selMap ∩ (cacheUUIDs (SyncToModel t0)).toFinset).card) ∧
    ((HasSelection (SyncToModel t0)).1 = true ↔
      ((SyncToModel t0).selMap ∩ (cacheUUIDs (SyncToModel t0)).toFinset).Nonempty) ∧
    ((SelectionCount (SyncToModel t0)).2.selNeedsPrune = false) ∧
    (u ∉ (SelectionCount (SyncToModel t0)).2.selMap) ∧
    (∀ (minimal : Bool) (r : Row), r ∈ (SelectedRows (SyncToModel t0) minimal).1 →
      r ∈ (SyncToModel t0).rowCache.map (fun e => e.row)) ∧
    (∀ minimal : Bool,
      u ∉ ((SelectedRows (SyncToModel t0) minimal).1.map (fun r => r.uuid))) := by
  have hp : (SyncToModel t0).selNeedsPrune = true := rfl
  obtain ⟨h1, h2, h3⟩ := prune_state (SyncToModel t0) hp
  have husel : u ∉ (PruneSelectionOfUndisclosedNodes (SyncToModel t0)).selMap := by
    rw [h1]
    intro hmem
    exact hu (List.mem_toFinset.mp (Finset.mem_inter.mp hmem).2)
  refine ⟨?_, ?_, ?_, ?_, ?_, ?_⟩
  · show (PruneSelectionOfUndisclosedNodes (SyncToModel t0)).selMap.card = _
    rw [h1]
  · show (decide ((PruneSelectionOfUndisclosedNodes (SyncToModel t0)).selMap.card ≠ 0) = true) ↔ _
    rw [h1]
    simp only [decide_eq_true_eq, Ne, Finset.card_eq_zero]
    exact Finset.nonempty_iff_ne_empty.symm
  · exact h2
  · exact husel
  · intro minimal r hr
    obtain ⟨e, he, heq, _⟩ := selectedRows_mem (SyncToModel t0) minimal r hr
    rw [h3] at he
    rw [← heq]
    exact List.mem_map_of_mem (fun e => e.row) he
  · intro minimal hmem
    simp only [List.mem_map] at hmem
    obtain ⟨r, hr, hru⟩ := hmem
    obtain ⟨e, _, heq, hsel⟩ := selectedRows_mem (SyncToModel t0) minimal r hr
    rw [heq, hru] at hsel
    exact husel hsel

/-- A table whose model holds only the row with UUID 1 while the selection
still holds UUIDs 1 and 2 (row 2 was removed from the model). -/
def pruneQueryTable : TableState :=
  { emptyTable with roots := Forest.cons (exRow 1) Forest.nil, selMap := {1, 2} }

theorem queriesReflectOnlyCachedRows_witness :
    (2 ∉ cacheUUIDs (SyncToModel pruneQueryTable)) ∧
    (((SelectionCount (SyncToModel pruneQueryTable)).1 =
      ((SyncToModel pruneQueryTable).selMap ∩
        (cacheUUIDs (SyncToModel pruneQueryTable)).toFinset).card) ∧
    ((HasSelection (SyncToModel pruneQueryTable)).1 = true ↔
      ((SyncToModel pruneQueryTable).selMap ∩
        (cacheUUIDs (SyncToModel pruneQueryTable)).toFinset).Nonempty) ∧
    ((SelectionCount (SyncToModel pruneQueryTable)).2.selNeedsPrune = false) ∧
    (2 ∉ (SelectionCount (SyncToModel pruneQueryTable)).2.selMap) ∧
    (∀ (minimal : Bool) (r : Row), r ∈ (SelectedRows (SyncToModel pruneQueryTable) minimal).1 →
      r ∈ (SyncToModel pruneQueryTable).rowCache.map (fun e => e.row)) ∧
    (∀ minimal : Bool,
      2 ∉ ((SelectedRows (SyncToModel pruneQueryTable) minimal).1.map (fun r => r.uuid)))) :=
  ⟨by decide, queriesReflectOnlyCachedRows pruneQueryTable 2 (by decide)⟩

theorem uuidsRow_node (v : Nat) (ch op : Bool) (cs : Forest) :
    uuidsRow (Row.node v ch op cs) = v :: uuidsForest cs := rfl

theorem uuidsForest_cons (r : Row) (rs : Forest) :
    uuidsForest (Forest.cons r rs) = uuidsRow r ++ uuidsForest rs := rfl

theorem setOpen_not_mem_all (u : Nat) (b : Bool) :
    (∀ r : Row, u ∉ uuidsRow r → setOpenByIdRow u b r = r) ∧
    (∀ f : Forest, u ∉ uuidsForest f → setOpenByIdForest u b f = f) :=
  row_forest_induction
    (fun r => u ∉ uuidsRow r → setOpenByIdRow u b r = r)
    (fun f => u ∉ uuidsForest f → setOpenByIdForest u b f = f)
    (fun v ch op cs ih h => by
      rw [uuidsRow_node, List.mem_cons, not_or] at h
      simp only [setOpenByIdRow, if_neg (Ne.symm h.1), ih h.2])
    (fun _ => rfl)
    (fun r rs ihr ihrs h => by
      rw [uuidsForest_cons, List.mem_append, not_or] at h
      simp only [setOpenByIdForest, ihr h.1, ihrs h.2])

theorem find_some_facts_all (u : Nat) :
    (∀ r : Row, ∀ r', findRowByIdRow u r = some r' → u ∈ uuidsRow r ∧ r'.uuid = u) ∧
    (∀ f : Forest, ∀ r', findRowByIdForest u f = some r' → u ∈ uuidsForest f ∧ r'.uuid = u) :=
  row_forest_induction
    (fun r => ∀ r', findRowByIdRow u r = some r' → u ∈ uuidsRow r ∧ r'.uuid = u)
    (fun f => ∀ r', findRowByIdForest u f = some r' → u ∈ uuidsForest f ∧ r'.uuid = u)
    (fun v ch op cs ih r' h => by
      rw [uuidsRow_node]
      unfold findRowByIdRow at h
      by_cases hv : v = u
      · rw [if_pos hv] at h
        cases h
        exact ⟨by rw [hv]; exact List.mem_cons_self u _, by simpa using hv⟩
      · rw [if_neg hv] at h
        obtain ⟨hm, hu⟩ := ih r' h
        exact ⟨List.mem_cons_of_mem v hm, hu⟩)
    (fun r' h => by simp [findRowByIdForest] at h)
    (fun r rs ihr ihrs r' h => by
      rw [uuidsForest_cons]
      unfold findRowByIdForest at h
      cases hr : findRowByIdRow u r with
      | some r0 =>
        rw [hr] at h
        cases h
        obtain ⟨hm, hu⟩ := ihr r' hr
        exact ⟨List.mem_append_left _ hm, hu⟩
      | none =>
        rw [hr] at h
        obtain ⟨hm, hu⟩ := ihrs r' h
        exact ⟨List.mem_append_right _ hm, hu⟩)

theorem find_isSome_all (u : Nat) :
    (∀ r : Row, u ∈ uuidsRow r → (findRowByIdRow u r).isSome = true) ∧
    (∀ f : Forest, u ∈ uuidsForest f → (findRowByIdForest u f).isSome = true) :=
  row_forest_induction
    (fun r => u ∈ uuidsRow r → (findRowByIdRow u r).isSome = true)
    (fun f => u ∈ uuidsForest f → (findRowByIdForest u f).isSome = true)
    (fun v ch op cs ih h => by
      unfold findRowByIdRow
      by_cases hv : v = u
      · rw [if_pos hv]; rfl
      · rw [if_neg hv]
        rw [uuidsRow_node, List.mem_cons] at h
        rcases h with h | h
        · exact absurd h.symm hv
        · exact ih h)
    (fun h => by simp [uuidsForest] at h)
    (fun r rs ihr ihrs h => by
      rw [uuidsForest_cons, List.mem_append] at h
      unfold findRowByIdForest
      cases hr : findRowByIdRow u r with
      | some r0 => rfl
      | none =>
        rcases h with h | h
        · have hs := ihr h
          rw [hr] at hs
          cases hs
        · exact ihrs h)

theorem find_none_not_mem (u : Nat) (r : Row) (h : findRowByIdRow u r = none) :
    u ∉ uuidsRow r := by
  intro hm
  have := (find_isSome_all u).1 r hm
  rw [h] at this
  cases this

theorem uuids_setOpen_all (u : Nat) (b : Bool) :
    (∀ r : Row, uuidsRow (setOpenByIdRow u b r) = uuidsRow r) ∧
    (∀ f : Forest, uuidsForest (setOpenByIdForest u b f) = uuidsForest f) :=
  row_forest_induction
    (fun r => uuidsRow (setOpenByIdRow u b r) = uuidsRow r)
    (fun f => uuidsForest (setOpenByIdForest u b f) = uuidsForest f)
    (fun v ch op cs ih => by
      simp only [setOpenByIdRow, uuidsRow_node, ih])
    rfl
    (fun r rs ihr ihrs => by
      simp only [setOpenByIdForest, uuidsForest_cons, ihr, ihrs])

theorem setOpen_setOpen_all (u : Nat) (b b' : Bool) :
    (∀ r : Row, setOpenByIdRow u b (setOpenByIdRow u b' r) = setOpenByIdRow u b r) ∧
    (∀ f : Forest, setOpenByIdForest u b (setOpenByIdForest u b' f) = setOpenByIdForest u b f) :=
  row_forest_induction
    (fun r => setOpenByIdRow u b (setOpenByIdRow u b' r) = setOpenByIdRow u b r)
    (fun f => setOpenByIdForest u b (setOpenByIdForest u b' f) = setOpenByIdForest u b f)
    (fun v ch op cs ih => by
      simp only [setOpenByIdRow, ih]
      by_cases hv : v = u
      · simp [hv]
      · simp [hv])
    rfl
    (fun r rs ihr ihrs => by
      simp only [setOpenByIdForest, ihr, ihrs])

theorem setOpen_restore_all (u : Nat) :
    (∀ r : Row, (uuidsRow r).Nodup → ∀ r', findRowByIdRow u r = some r' →
      setOpenByIdRow u r'.isOpen r = r) ∧
    (∀ f : Forest, (uuidsForest f).Nodup → ∀ r', findRowByIdForest u f = some r' →
      setOpenByIdForest u r'.isOpen f = f) :=
  row_forest_induction
    (fun r => (uuidsRow r).Nodup → ∀ r', findRowByIdRow u r = some r' →
      setOpenByIdRow u r'.isOpen r = r)
    (fun f => (uuidsForest f).Nodup → ∀ r', findRowByIdForest u f = some r' →
      setOpenByIdForest u r'.isOpen f = f)
    (fun v ch op cs ih hnd r' hf => by
      rw [uuidsRow_node, List.nodup_cons] at hnd
      unfold findRowByIdRow at hf
      by_cases hv : v = u
      · rw [if_pos hv] at hf
        cases hf
        simp only [setOpenByIdRow, Row.isOpen_node, if_pos hv]
        rw [(setOpen_not_mem_all u op).2 cs (by rw [← hv]; exact hnd.1)]
      · rw [if_neg hv] at hf
        simp only [setOpenByIdRow, if_neg hv, ih hnd.2 r' hf])
    (fun hnd r' hf => by cases hf)
    (fun r rs ihr ihrs hnd r' hf => by
      rw [uuidsForest_cons, List.nodup_append] at hnd
      unfold findRowByIdForest at hf
      cases hr : findRowByIdRow u r with
      | some r0 =>
        rw [hr] at hf
        cases hf
        have hu : u ∈ uuidsRow r := ((find_some_facts_all u).1 r r' hr).1
        have hnotrs : u ∉ uuidsForest rs := fun hm => hnd.2.2 hu hm
        simp only [setOpenByIdForest, ihr hnd.1 r' hr,
          (setOpen_not_mem_all u r'.isOpen).2 rs hnotrs]
      | none =>
        rw [hr] at hf
        have hnotr : u ∉ uuidsRow r := find_none_not_mem u r hr
        simp only [setOpenByIdForest, (setOpen_not_mem_all u r'.isOpen).1 r hnotr,
          ihrs hnd.2.1 r' hf])

theorem find_setOpen_all (u : Nat) (b : Bool) :
    (∀ r : Row, (uuidsRow r).Nodup → ∀ v ch o cs,
      findRowByIdRow u r = some (Row.node v ch o cs) →
      findRowByIdRow u (setOpenByIdRow u b r) = some (Row.node v ch b cs)) ∧
    (∀ f : Forest, (uuidsForest f).Nodup → ∀ v ch o cs,
      findRowByIdForest u f = some (Row.node v ch o cs) →
      findRowByIdForest u (setOpenByIdForest u b f) = some (Row.node v ch b cs)) :=
  row_forest_induction
    (fun r => (uuidsRow r).Nodup → ∀ v ch o cs,
      findRowByIdRow u r = some (Row.node v ch o cs) →
      findRowByIdRow u (setOpenByIdRow u b r) = some (Row.node v ch b cs))
    (fun f => (uuidsForest f).Nodup → ∀ v ch o cs,
      findRowByIdForest u f = some (Row.node v ch o cs) →
      findRowByIdForest u (setOpenByIdForest u b f) = some (Row.node v ch b cs))
    (fun w chw opw csw ih hnd v ch o cs hf => by
      rw [uuidsRow_node, List.nodup_cons] at hnd
      unfold findRowByIdRow at hf
      by_cases hw : w = u
      · rw [if_pos hw] at hf
        simp only [Option.some.injEq, Row.node.injEq] at hf
        obtain ⟨h1, h2, h3, h4⟩ := hf
        simp only [setOpenByIdRow, if_pos hw]
        rw [(setOpen_not_mem_all u b).2 csw (by rw [← hw]; exact hnd.1)]
        unfold findRowByIdRow
        rw [if_pos hw, h1, h2, h4]
      · rw [if_neg hw] at hf
        simp only [setOpenByIdRow, if_neg hw]
        unfold findRowByIdRow
        rw [if_neg hw]
        exact ih hnd.2 v ch o cs hf)
    (fun hnd v ch o cs hf => by cases hf)
    (fun r rs ihr ihrs hnd v ch o cs hf => by
      rw [uuidsForest_cons, List.nodup_append] at hnd
      unfold findRowByIdForest at hf
      cases hr : findRowByIdRow u r with
      | some r0 =>
        rw [hr] at hf
        injection hf with hf
        subst hf
        show (match findRowByIdRow u (setOpenByIdRow u b r) with
          | some r' => some r'
          | none => findRowByIdForest u (setOpenByIdForest u b rs)) = _
        rw [ihr hnd.1 v ch o cs hr]
      | none =>
        rw [hr] at hf
        have hnotr : u ∉ uuidsRow r := find_none_not_mem u r hr
        show (match findRowByIdRow u (setOpenByIdRow u b r) with
          | some r' => some r'
          | none => findRowByIdForest u (setOpenByIdForest u b rs)) = _
        rw [(setOpen_not_mem_all u b).1 r hnotr, hr]
        exact ihrs hnd.2.1 v ch o cs hf)

theorem prune_preserves (t : TableState) :
    (PruneSelectionOfUndisclosedNodes t).roots = t.roots ∧
    (PruneSelectionOfUndisclosedNodes t).filteredRows = t.filteredRows ∧
    (PruneSelectionOfUndisclosedNodes t).params = t.params ∧
    (PruneSelectionOfUndisclosedNodes t).rowCache = t.rowCache := by
  refine ⟨?_, ?_, ?_, ?_⟩ <;>
  · unfold PruneSelectionOfUndisclosedNodes
    dsimp only
    split
    · rfl
    · split
      · rfl
      · split
        · rfl
        · rfl

theorem handler_state_none (t : TableState) (u : Nat)
    (hf : findRowByIdForest u t.roots = none) : newTableHitRectHandler t u = t := by
  unfold newTableHitRectHandler
  rw [hf]

theorem handler_state_some (t : TableState) (u : Nat) (r : Row)
    (hf : findRowByIdForest u t.roots = some r) :
    (newTableHitRectHandler t u).roots = setOpenByIdForest u (!r.isOpen) t.roots ∧
    (newTableHitRectHandler t u).filteredRows = t.filteredRows ∧
    (newTableHitRectHandler t u).params = t.params ∧
    (newTableHitRectHandler t u).rowCache =
      rowCacheOf { t with roots := setOpenByIdForest u (!r.isOpen) t.roots } := by
  unfold newTableHitRectHandler
  rw [hf]
  dsimp only
  split
  · refine ⟨?_, ?_, ?_, ?_⟩
    · exact (prune_preserves _).1
    · exact (prune_preserves _).2.1
    · exact (prune_preserves _).2.2.1
    · exact (prune_preserves _).2.2.2
  · exact ⟨rfl, rfl, rfl, rfl⟩

theorem rowCacheOf_none (t : TableState) (hf : t.filteredRows = none) :
    rowCacheOf t = (buildRowCacheForest t.params true t.roots (-1) 0 0).1 := by
  unfold rowCacheOf RootRows
  rw [hf]
  rfl

/-- C6: in non-filtered mode, toggling the open flag of the same row twice
through the disclosure hit-rect handler (each toggle resyncing the cache,
and pruning on collapse) returns the row cache to a state identical entry
for entry to the one before the two toggles, provided the UUIDs in the
model are distinct and the cache was in sync with the model. -/
theorem toggleTwiceRestoresCache (t : TableState) (u : Nat)
    (hnd : (uuidsForest t.roots).Nodup) (hf : t.filteredRows = none)
    (hsync : t.rowCache = rowCacheOf t) :
    (newTableHitRectHandler (newTableHitRectHandler t u) u).rowCache = t.rowCache := by
  cases hfind : findRowByIdForest u t.roots with
  | none =>
    rw [handler_state_none t u hfind, handler_state_none t u hfind]
  | some r =>
    rcases r with ⟨v, ch, o, cs⟩
    obtain ⟨hr1, hfr1, hp1, hc1⟩ := handler_state_some t u (Row.node v ch o cs) hfind
    rw [Row.isOpen_node] at hr1 hc1
    have hnd1 : (uuidsForest (newTableHitRectHandler t u).roots).Nodup := by
      rw [hr1, (uuids_setOpen_all u (!o)).2]
      exact hnd
    have hfind1 : findRowByIdForest u (newTableHitRectHandler t u).roots =
        some (Row.node v ch (!o) cs) := by
      rw [hr1]
      exact (find_setOpen_all u (!o)).2 t.roots hnd v ch o cs hfind
    obtain ⟨hr2, hfr2, hp2, hc2⟩ :=
      handler_state_some (newTableHitRectHandler t u) u (Row.node v ch (!o) cs) hfind1
    rw [hc2]
    have hroots2 : setOpenByIdForest u (!(Row.node v ch (!o) cs).isOpen)
        (newTableHitRectHandler t u).roots = t.roots := by
      rw [Row.isOpen_node, Bool.not_not, hr1, (setOpen_setOpen_all u o (!o)).2]
      have := (setOpen_restore_all u).2 t.roots hnd (Row.node v ch o cs) hfind
      rw [Row.isOpen_node] at this
      exact this
    rw [hroots2]
    have hfr1n : (newTableHitRectHandler t u).filteredRows = none := by rw [hfr1, hf]
    rw [rowCacheOf_none _ (show ({ newTableHitRectHandler t u with roots := t.roots } :
      TableState).filteredRows = none from hfr1n)]
    have hparams : ({ newTableHitRectHandler t u with roots := t.roots } :
        TableState).params = t.params := hp1
    rw [show ({ newTableHitRectHandler t u with roots := t.roots } : TableState).params =
      t.params from hp1]
    rw [hsync, rowCacheOf_none t hf]

/-- Three top-level rows where the first is open and has one child. -/
def toggleForest : Forest :=
  Forest.cons (Row.node 1 true true (Forest.cons (exRow 2) Forest.nil))
    (Forest.cons (exRow 3) Forest.nil)

/-- A synced table over toggleForest. -/
def toggleTable : TableState :=
  SyncToModel { emptyTable with roots := toggleForest }

theorem toggleTwiceRestoresCache_witness :
    (uuidsForest toggleTable.roots).Nodup ∧ toggleTable.filteredRows = none ∧
    toggleTable.rowCache = rowCacheOf toggleTable ∧
    (newTableHitRectHandler (newTableHitRectHandler toggleTable 1) 1).rowCache =
      toggleTable.rowCache :=
  ⟨by decide, rfl, rfl, toggleTwiceRestoresCache toggleTable 1 (by decide) rfl rfl⟩

theorem openFlattenRow_node (v : Nat) (ch op : Bool) (cs : Forest) :
    openFlattenRow (Row.node v ch op cs) =
      Row.node v ch op cs :: (if ch && op then openFlattenForest cs else []) := rfl

theorem openFlattenForest_nil : openFlattenForest Forest.nil = [] := rfl

theorem openFlattenForest_cons (r : Row) (rs : Forest) :
    openFlattenForest (Forest.cons r rs) = openFlattenRow r ++ openFlattenForest rs := rfl

/-- The cache entry written for a row at a given absolute index. -/
def cacheEntryAt (pm : TableParams) (r : Row) (p : Int) (i d : Nat) : CacheEntry :=
  { row := r, parent := p, depth := d, height := heightForColumns pm r i d }

theorem buildRowCacheEntry_true (pm : TableParams) (v : Nat) (ch op : Bool) (cs : Forest)
    (p : Int) (i d : Nat) :
    buildRowCacheEntry pm true (Row.node v ch op cs) p i d =
      if ch && op then
        (cacheEntryAt pm (Row.node v ch op cs) p i d ::
          (buildRowCacheForest pm true cs (Int.ofNat i) (i + 1) (d + 1)).1,
         (buildRowCacheForest pm true cs (Int.ofNat i) (i + 1) (d + 1)).2)
      else ([cacheEntryAt pm (Row.node v ch op cs) p i d], i + 1) := by
  simp only [buildRowCacheEntry, Bool.true_and, cacheEntryAt]

theorem build_map_row_all (pm : TableParams) :
    (∀ (r : Row) (p : Int) (i d : Nat),
      (buildRowCacheEntry pm true r p i d).1.map (fun e => e.row) = openFlattenRow r ∧
      (buildRowCacheEntry pm true r p i d).2 = i + (buildRowCacheEntry pm true r p i d).1.length) ∧
    (∀ (f : Forest) (p : Int) (i d : Nat),
      (buildRowCacheForest pm true f p i d).1.map (fun e => e.row) = openFlattenForest f ∧
      (buildRowCacheForest pm true f p i d).2 = i + (buildRowCacheForest pm true f p i d).1.length) :=
  row_forest_induction
    (fun r => ∀ (p : Int) (i d : Nat),
      (buildRowCacheEntry pm true r p i d).1.map (fun e => e.row) = openFlattenRow r ∧
      (buildRowCacheEntry pm true r p i d).2 = i + (buildRowCacheEntry pm true r p i d).1.length)
    (fun f => ∀ (p : Int) (i d : Nat),
      (buildRowCacheForest pm true f p i d).1.map (fun e => e.row) = openFlattenForest f ∧
      (buildRowCacheForest pm true f p i d).2 = i + (buildRowCacheForest pm true f p i d).1.length)
    (fun v ch op cs ih p i d => by
      rw [buildRowCacheEntry_true, openFlattenRow_node]
      by_cases hco : (ch && op) = true
      · rw [if_pos hco, if_pos hco]
        obtain ⟨ihm, ihi⟩ := ih (Int.ofNat i) (i + 1) (d + 1)
        constructor
        · simp only [List.map_cons, ihm, cacheEntryAt]
        · simp only [ihi, List.length_cons]
          omega
      · rw [if_neg hco, if_neg hco]
        exact ⟨by simp [cacheEntryAt], by simp⟩)
    (fun p i d => ⟨rfl, rfl⟩)
    (fun r rs ihr ihrs p i d => by
      rw [buildRowCacheForest_cons, openFlattenForest_cons]
      obtain ⟨ihm1, ihi1⟩ := ihr p i d
      obtain ⟨ihm2, ihi2⟩ := ihrs p (buildRowCacheEntry pm true r p i d).2 d
      refine ⟨by simp only [List.map_append, ihm1, ihm2], ?_⟩
      rw [List.length_append, ihi2, ihi1]
      omega)

/-- The rows of a list of cache entries, in order. -/
def entryRows (es : List CacheEntry) : List Row := es.map (fun e => e.row)

/-- Well-formedness of a contiguous cache segment es laid out at absolute
index i: every entry either is a segment head (parent p, depth d, row among
heads) or points at an earlier entry of the segment that is its open parent
one level up; and an open parent is immediately followed by the pre-order
flattening of its children. -/
def SegOK (heads : List Row) (p : Int) (i d : Nat) (es : List CacheEntry) : Prop :=
  ∀ j e, es[j]? = some e →
    (d ≤ e.depth) ∧
    ((e.parent = p ∧ e.depth = d ∧ e.row ∈ heads) ∨
      (∃ q : Nat, e.parent = (q : Int) ∧ i ≤ q ∧ q < i + j ∧
        ∃ pe, es[q - i]? = some pe ∧ e.row ∈ pe.row.children.toList ∧
          e.depth = pe.depth + 1 ∧ pe.row.canHaveChildren = true ∧ pe.row.isOpen = true)) ∧
    (e.row.canHaveChildren = true → e.row.isOpen = true →
      j + 1 + (openFlattenForest e.row.children).length ≤ es.length ∧
      ((entryRows es).drop (j + 1)).take (openFlattenForest e.row.children).length =
        openFlattenForest e.row.children)

theorem SegOK_single (r0 : Row) (E : CacheEntry) (p : Int) (i d : Nat)
    (hrow : E.row = r0) (hpar : E.parent = p) (hdep : E.depth = d)
    (hco : ¬(r0.canHaveChildren = true ∧ r0.isOpen = true)) :
    SegOK [r0] p i d [E] := by
  intro j e hj
  cases j with
  | zero =>
    rw [List.getElem?_cons_zero] at hj
    injection hj with hj
    subst hj
    refine ⟨by omega, Or.inl ⟨hpar, hdep, by rw [hrow]; exact List.mem_cons_self _ _⟩, ?_⟩
    intro hc ho
    exact absurd ⟨by rw [← hrow]; exact hc, by rw [← hrow]; exact ho⟩ hco
  | succ j => simp at hj

theorem SegOK_cons (r0 : Row) (E : CacheEntry) (p : Int) (i d : Nat) (B : List CacheEntry)
    (hrow : E.row = r0) (hpar : E.parent = p) (hdep : E.depth = d)
    (hcan : r0.canHaveChildren = true) (hop : r0.isOpen = true)
    (hmapB : entryRows B = openFlattenForest r0.children)
    (hB : SegOK r0.children.toList (Int.ofNat i) (i + 1) (d + 1) B) :
    SegOK [r0] p i d (E :: B) := by
  have hlenB : B.length = (openFlattenForest r0.children).length := by
    rw [← hmapB]
    simp [entryRows]
  intro j e hj
  cases j with
  | zero =>
    rw [List.getElem?_cons_zero] at hj
    injection hj with hj
    subst hj
    refine ⟨by omega, Or.inl ⟨hpar, hdep, by rw [hrow]; exact List.mem_cons_self _ _⟩, ?_⟩
    intro _ _
    constructor
    · rw [List.length_cons, hrow, ← hlenB]
      omega
    · rw [hrow]
      show ((entryRows (E :: B)).drop 1).take (openFlattenForest r0.children).length =
        openFlattenForest r0.children
      simp only [entryRows, List.map_cons, List.drop_succ_cons, List.drop_zero]
      show (entryRows B).take (openFlattenForest r0.children).length = _
      rw [hmapB, List.take_length]
  | succ j =>
    rw [List.getElem?_cons_succ] at hj
    obtain ⟨h1, h2, h3⟩ := hB j e hj
    refine ⟨by omega, ?_, ?_⟩
    · rcases h2 with ⟨hp1, hd1, hmem⟩ | ⟨q, hq1, hq2, hq3, pe, hpe, hmm, hdd, hcn, hos⟩
      · refine Or.inr ⟨i, hp1, le_refl i, by omega, E, ?_, ?_, ?_, ?_, ?_⟩
        · rw [Nat.sub_self, List.getElem?_cons_zero]
        · rw [hrow]; exact hmem
        · rw [hd1, hdep]
        · rw [hrow]; exact hcan
        · rw [hrow]; exact hop
      · refine Or.inr ⟨q, hq1, by omega, by omega, pe, ?_, hmm, hdd, hcn, hos⟩
        have harith : q - i = (q - (i + 1)) + 1 := by omega
        rw [harith, List.getElem?_cons_succ]
        exact hpe
    · intro hc ho
      obtain ⟨hlen, hslice⟩ := h3 hc ho
      constructor
      · rw [List.length_cons]; omega
      · show ((entryRows (E :: B)).drop (j + 1 + 1)).take _ = _
        simp only [entryRows, List.map_cons, List.drop_succ_cons]
        exact hslice

theorem SegOK_append (heads1 heads2 : List Row) (p : Int) (i d : Nat)
    (A B : List CacheEntry)
    (hA : SegOK heads1 p i d A) (hB : SegOK heads2 p (i + A.length) d B) :
    SegOK (heads1 ++ heads2) p i d (A ++ B) := by
  intro j e hj
  by_cases hjA : j < A.length
  · rw [List.getElem?_append_left hjA] at hj
    obtain ⟨h1, h2, h3⟩ := hA j e hj
    refine ⟨h1, ?_, ?_⟩
    · rcases h2 with ⟨hp1, hd1, hmem⟩ | ⟨q, hq1, hq2, hq3, pe, hpe, hmm, hdd, hcn, hos⟩
      · exact Or.inl ⟨hp1, hd1, List.mem_append_left _ hmem⟩
      · refine Or.inr ⟨q, hq1, hq2, hq3, pe, ?_, hmm, hdd, hcn, hos⟩
        rw [List.getElem?_append_left (by omega : q - i < A.length)]
        exact hpe
    · intro hc ho
      obtain ⟨hlen, hslice⟩ := h3 hc ho
      constructor
      · rw [List.length_append]; omega
      · have hdrop : (entryRows (A ++ B)).drop (j + 1) =
            (entryRows A).drop (j + 1) ++ entryRows B := by
          simp only [entryRows, List.map_append]
          exact List.drop_append_of_le_length (by simp; omega)
        rw [hdrop, List.take_append_of_le_length (by simp [entryRows]; omega)]
        exact hslice
  · push_neg at hjA
    rw [List.getElem?_append_right hjA] at hj
    obtain ⟨h1, h2, h3⟩ := hB (j - A.length) e hj
    refine ⟨h1, ?_, ?_⟩
    · rcases h2 with ⟨hp1, hd1, hmem⟩ | ⟨q, hq1, hq2, hq3, pe, hpe, hmm, hdd, hcn, hos⟩
      · exact Or.inl ⟨hp1, hd1, List.mem_append_right _ hmem⟩
      · refine Or.inr ⟨q, hq1, by omega, by omega, pe, ?_, hmm, hdd, hcn, hos⟩
        rw [List.getElem?_append_right (by omega : A.length ≤ q - i)]
        have harith : q - i - A.length = q - (i + A.length) := by omega
        rw [harith]
        exact hpe
    · intro hc ho
      obtain ⟨hlen, hslice⟩ := h3 hc ho
      constructor
      · rw [List.length_append]; omega
      · have hlenEA : (entryRows A).length = A.length := by simp [entryRows]
        have harith : j + 1 = (entryRows A).length + (j - A.length + 1) := by
          rw [hlenEA]; omega
        rw [show entryRows (A ++ B) = entryRows A ++ entryRows B by simp [entryRows],
          harith, List.drop_append]
        exact hslice

theorem segOK_all (pm : TableParams) :
    (∀ (r : Row) (p : Int) (i d : Nat),
      SegOK [r] p i d (buildRowCacheEntry pm true r p i d).1) ∧
    (∀ (f : Forest) (p : Int) (i d : Nat),
      SegOK f.toList p i d (buildRowCacheForest pm true f p i d).1) :=
  row_forest_induction
    (fun r => ∀ (p : Int) (i d : Nat), SegOK [r] p i d (buildRowCacheEntry pm true r p i d).1)
    (fun f => ∀ (p : Int) (i d : Nat), SegOK f.toList p i d (buildRowCacheForest pm true f p i d).1)
    (fun v ch op cs ih p i d => by
      rw [buildRowCacheEntry_true]
      by_cases hco : (ch && op) = true
      · rw [if_pos hco]
        obtain ⟨hch, hop⟩ := (Bool.and_eq_true ch op).mp hco
        refine SegOK_cons (Row.node v ch op cs) _ p i d _ rfl rfl rfl
          (by rw [Row.canHaveChildren_node]; exact hch)
          (by rw [Row.isOpen_node]; exact hop) ?_ ?_
        · rw [Row.children_node]
          exact ((build_map_row_all pm).2 cs (Int.ofNat i) (i + 1) (d + 1)).1
        · rw [Row.children_node]
          exact ih (Int.ofNat i) (i + 1) (d + 1)
      · rw [if_neg hco]
        refine SegOK_single (Row.node v ch op cs) _ p i d rfl rfl rfl ?_
        rintro ⟨h1, h2⟩
        rw [Row.canHaveChildren_node] at h1
        rw [Row.isOpen_node] at h2
        rw [h1, h2] at hco
        exact hco rfl)
    (fun p i d => by
      rw [buildRowCacheForest_nil]
      intro j e hj
      simp at hj)
    (fun r rs ihr ihrs p i d => by
      have hidx := ((build_map_row_all pm).1 r p i d).2
      have hsplit : (buildRowCacheForest pm true (Forest.cons r rs) p i d).1 =
          (buildRowCacheEntry pm true r p i d).1 ++
            (buildRowCacheForest pm true rs p
              (i + (buildRowCacheEntry pm true r p i d).1.length) d).1 := by
        rw [buildRowCacheForest_cons, ← hidx]
      rw [hsplit]
      have happ := SegOK_append [r] rs.toList p i d _ _ (ihr p i d)
        (ihrs p (i + (buildRowCacheEntry pm true r p i d).1.length) d)
      rw [show ([r] ++ rs.toList : List Row) = (Forest.cons r rs).toList from rfl] at happ
      exact happ)

theorem flatten_uuid_mem_all :
    (∀ r0 : Row, ∀ r, r ∈ openFlattenRow r0 → r.uuid ∈ uuidsRow r0) ∧
    (∀ f : Forest, ∀ r, r ∈ openFlattenForest f → r.uuid ∈ uuidsForest f) :=
  row_forest_induction
    (fun r0 => ∀ r, r ∈ openFlattenRow r0 → r.uuid ∈ uuidsRow r0)
    (fun f => ∀ r, r ∈ openFlattenForest f → r.uuid ∈ uuidsForest f)
    (fun v ch op cs ih r hr => by
      rw [openFlattenRow_node, List.mem_cons] at hr
      rw [uuidsRow_node]
      rcases hr with rfl | hr
      · rw [Row.uuid_node]
        exact List.mem_cons_self _ _
      · by_cases hco : (ch && op) = true
        · rw [if_pos hco] at hr
          exact List.mem_cons_of_mem _ (ih r hr)
        · rw [if_neg hco] at hr
          cases hr)
    (fun r hr => by cases hr)
    (fun r0 rs ihr ihrs r hr => by
      rw [openFlattenForest_cons, List.mem_append] at hr
      rw [uuidsForest_cons]
      rcases hr with hr | hr
      · exact List.mem_append_left _ (ihr r hr)
      · exact List.mem_append_right _ (ihrs r hr))

theorem flatten_setOpen_all (u : Nat) :
    (∀ r0 : Row, (uuidsRow r0).Nodup → ∀ r, r ∈ openFlattenRow r0 → r.uuid = u →
      ∃ A E, openFlattenRow r0 = A ++ r ::
          ((if r.canHaveChildren && r.isOpen then openFlattenForest r.children else []) ++ E) ∧
        (openFlattenRow (setOpenByIdRow u false r0)).map Row.uuid =
          A.map Row.uuid ++ u :: E.map Row.uuid ∧
        (openFlattenRow (setOpenByIdRow u true r0)).map Row.uuid =
          A.map Row.uuid ++ u ::
            ((if r.canHaveChildren then openFlattenForest r.children else []).map Row.uuid ++
              E.map Row.uuid)) ∧
    (∀ f : Forest, (uuidsForest f).Nodup → ∀ r, r ∈ openFlattenForest f → r.uuid = u →
      ∃ A E, openFlattenForest f = A ++ r ::
          ((if r.canHaveChildren && r.isOpen then openFlattenForest r.children else []) ++ E) ∧
        (openFlattenForest (setOpenByIdForest u false f)).map Row.uuid =
          A.map Row.uuid ++ u :: E.map Row.uuid ∧
        (openFlattenForest (setOpenByIdForest u true f)).map Row.uuid =
          A.map Row.uuid ++ u ::
            ((if r.canHaveChildren then openFlattenForest r.children else []).map Row.uuid ++
              E.map Row.uuid)) :=
  row_forest_induction _ _
    (fun v ch op cs ih hnd r hr hu => by
      rw [uuidsRow_node, List.nodup_cons] at hnd
      obtain ⟨hv, hnd2⟩ := hnd
      rw [openFlattenRow_node, List.mem_cons] at hr
      rcases hr with rfl | hr
      · have hvu : v = u := by rw [← hu, Row.uuid_node]
        refine ⟨[], [], ?_, ?_, ?_⟩
        · simp only [openFlattenRow_node, Row.canHaveChildren_node, Row.isOpen_node,
            Row.children_node, List.nil_append, List.append_nil]
        · have hset : setOpenByIdRow u false (Row.node v ch op cs) =
              Row.node v ch false cs := by
            simp only [setOpenByIdRow, if_pos hvu,
              (setOpen_not_mem_all u false).2 cs (hvu ▸ hv)]
          rw [hset, openFlattenRow_node]
          simp [hvu]
        · have hset : setOpenByIdRow u true (Row.node v ch op cs) =
              Row.node v ch true cs := by
            simp only [setOpenByIdRow, if_pos hvu,
              (setOpen_not_mem_all u true).2 cs (hvu ▸ hv)]
          rw [hset, openFlattenRow_node]
          simp only [Row.canHaveChildren_node, Row.isOpen_node, Row.children_node,
            Bool.and_true, List.map_nil, List.nil_append, List.append_nil, List.map_cons,
            Row.uuid_node, hvu]
      · by_cases hco : (ch && op) = true
        · rw [if_pos hco] at hr
          have humem : u ∈ uuidsForest cs := hu ▸ flatten_uuid_mem_all.2 cs r hr
          have hvu : v ≠ u := fun h => hv (h ▸ humem)
          obtain ⟨A', E', h1, h2, h3⟩ := ih hnd2 r hr hu
          refine ⟨Row.node v ch op cs :: A', E', ?_, ?_, ?_⟩
          · rw [openFlattenRow_node, if_pos hco, h1, List.cons_append]
          · have hset : setOpenByIdRow u false (Row.node v ch op cs) =
                Row.node v ch op (setOpenByIdForest u false cs) := by
              simp only [setOpenByIdRow, if_neg hvu]
            rw [hset, openFlattenRow_node, if_pos hco, List.map_cons, Row.uuid_node, h2,
              List.map_cons, Row.uuid_node, List.cons_append]
          · have hset : setOpenByIdRow u true (Row.node v ch op cs) =
                Row.node v ch op (setOpenByIdForest u true cs) := by
              simp only [setOpenByIdRow, if_neg hvu]
            rw [hset, openFlattenRow_node, if_pos hco, List.map_cons, Row.uuid_node, h3,
              List.map_cons, Row.uuid_node, List.cons_append]
        · rw [if_neg hco] at hr
          cases hr)
    (fun hnd r hr hu => by cases hr)
    (fun r0 rs ihr ihrs hnd r hr hu => by
      rw [uuidsForest_cons, List.nodup_append] at hnd
      obtain ⟨nd1, nd2, disj⟩ := hnd
      rw [openFlattenForest_cons, List.mem_append] at hr
      rcases hr with hr | hr
      · have humem : u ∈ uuidsRow r0 := hu ▸ flatten_uuid_mem_all.1 r0 r hr
        have hurs : u ∉ uuidsForest rs := fun hm => disj humem hm
        obtain ⟨A', E', h1, h2, h3⟩ := ihr nd1 r hr hu
        refine ⟨A', E' ++ openFlattenForest rs, ?_, ?_, ?_⟩
        · rw [openFlattenForest_cons, h1]
          simp [List.append_assoc]
        · show (openFlattenForest (Forest.cons (setOpenByIdRow u false r0)
              (setOpenByIdForest u false rs))).map Row.uuid = _
          rw [(setOpen_not_mem_all u false).2 rs hurs, openFlattenForest_cons,
            List.map_append, h2]
          simp [List.append_assoc]
        · show (openFlattenForest (Forest.cons (setOpenByIdRow u true r0)
              (setOpenByIdForest u true rs))).map Row.uuid = _
          rw [(setOpen_not_mem_all u true).2 rs hurs, openFlattenForest_cons,
            List.map_append, h3]
          simp [List.append_assoc]
      · have humem : u ∈ uuidsForest rs := hu ▸ flatten_uuid_mem_all.2 rs r hr
        have hur0 : u ∉ uuidsRow r0 := fun hm => disj hm humem
        obtain ⟨A', E', h1, h2, h3⟩ := ihrs nd2 r hr hu
        refine ⟨openFlattenRow r0 ++ A', E', ?_, ?_, ?_⟩
        · rw [openFlattenForest_cons, h1]
          simp [List.append_assoc]
        · show (openFlattenForest (Forest.cons (setOpenByIdRow u false r0)
              (setOpenByIdForest u false rs))).map Row.uuid = _
          rw [(setOpen_not_mem_all u false).1 r0 hur0, openFlattenForest_cons,
            List.map_append, h2]
          simp [List.append_assoc]
        · show (openFlattenForest (Forest.cons (setOpenByIdRow u true r0)
              (setOpenByIdForest u true rs))).map Row.uuid = _
          rw [(setOpen_not_mem_all u true).1 r0 hur0, openFlattenForest_cons,
            List.map_append, h3]
          simp [List.append_assoc])

theorem cache_map_uuid_bridge (s : TableState) (hs : s.filteredRows = none) :
    (rowCacheOf s).map (fun e => e.row.uuid) = (openFlattenForest s.roots).map Row.uuid := by
  rw [rowCacheOf_none s hs, ← ((build_map_row_all s.params).2 s.roots (-1) 0 0).1,
    List.map_map]
  rfl

/-- C1: in non-filtered mode the rebuilt row cache is exactly the pre-order
flattening of the open subtrees: the cached rows, in order, are the open
pre-order flattening of the roots; an entry has parent -1 exactly when its
depth is 0, in which case its row is a root; any other entry points at an
earlier entry whose row is its parent (open, able to have children) one
depth level up; the flattening of the children of an open parent follows it
immediately, and no entry names a closed or childless entry as parent; and,
for distinct UUIDs, closing a visible row removes exactly the contiguous
block of its descendants from the cache without reordering the rest, while
opening it reinserts its child flattening at the same position. -/
theorem cacheIsOpenPreorder (t : TableState) (hf : t.filteredRows = none) :
    ((rowCacheOf t).map (fun e => e.row) = openFlattenForest t.roots) ∧
    (∀ (i : Nat) (e : CacheEntry), (rowCacheOf t)[i]? = some e →
      (e.parent = -1 ↔ e.depth = 0) ∧
      (e.parent = -1 → e.row ∈ t.roots.toList) ∧
      (∀ q : Nat, e.parent = (q : Int) → q < i ∧ ∃ pe, (rowCacheOf t)[q]? = some pe ∧
        e.row ∈ pe.row.children.toList ∧ e.depth = pe.depth + 1 ∧
        pe.row.canHaveChildren = true ∧ pe.row.isOpen = true)) ∧
    (∀ (i : Nat) (e : CacheEntry), (rowCacheOf t)[i]? = some e →
      (e.row.canHaveChildren = true → e.row.isOpen = true →
        (((rowCacheOf t).map (fun e => e.row)).drop (i + 1)).take
          (openFlattenForest e.row.children).length = openFlattenForest e.row.children) ∧
      (¬(e.row.canHaveChildren = true ∧ e.row.isOpen = true) →
        ∀ (j : Nat) (e2 : CacheEntry), (rowCacheOf t)[j]? = some e2 →
          e2.parent ≠ (i : Int))) ∧
    ((uuidsForest t.roots).Nodup → ∀ u r, r ∈ (rowCacheOf t).map (fun e => e.row) →
      r.uuid = u →
      ∃ A E, (rowCacheOf t).map (fun e => e.row) = A ++ r ::
          ((if r.canHaveChildren && r.isOpen then openFlattenForest r.children else []) ++ E) ∧
        (rowCacheOf { t with roots := setOpenByIdForest u false t.roots }).map
            (fun e => e.row.uuid) = A.map Row.uuid ++ u :: E.map Row.uuid ∧
        (rowCacheOf { t with roots := setOpenByIdForest u true t.roots }).map
            (fun e => e.row.uuid) = A.map Row.uuid ++ u ::
          ((if r.canHaveChildren then openFlattenForest r.children else []).map Row.uuid ++
            E.map Row.uuid)) := by
  have hc : rowCacheOf t = (buildRowCacheForest t.params true t.roots (-1) 0 0).1 :=
    rowCacheOf_none t hf
  have hmap : (rowCacheOf t).map (fun e => e.row) = openFlattenForest t.roots := by
    rw [hc]
    exact ((build_map_row_all t.params).2 t.roots (-1) 0 0).1
  have hseg : SegOK t.roots.toList (-1) 0 0 (rowCacheOf t) := by
    rw [hc]
    exact (segOK_all t.params).2 t.roots (-1) 0 0
  refine ⟨hmap, ?_, ?_, ?_⟩
  · intro i e he
    obtain ⟨hd0, hcls, hca⟩ := hseg i e he
    refine ⟨?_, ?_, ?_⟩
    · constructor
      · intro hp
        rcases hcls with ⟨_, hd, _⟩ | ⟨q, hq1, _, _, _⟩
        · exact hd
        · rw [hp] at hq1
          omega
      · intro hdep
        rcases hcls with ⟨hp, _, _⟩ | ⟨q, _, _, _, pe, _, _, hdd, _, _⟩
        · exact hp
        · rw [hdep] at hdd
          omega
    · intro hp
      rcases hcls with ⟨_, _, hmem⟩ | ⟨q, hq1, _, _, _⟩
      · exact hmem
      · rw [hp] at hq1
        omega
    · intro q hq
      rcases hcls with ⟨hp, _, _⟩ | ⟨q', hq1, _, hq3, pe, hpe, hmm, hdd, hcn, hos⟩
      · rw [hp] at hq
        omega
      · rw [hq] at hq1
        have hqq : q = q' := by omega
        subst hqq
        rw [Nat.sub_zero] at hpe
        exact ⟨by omega, pe, hpe, hmm, hdd, hcn, hos⟩
  · intro i e he
    obtain ⟨_, _, hca⟩ := hseg i e he
    constructor
    · intro hcn hop
      exact (hca hcn hop).2
    · intro hnot j e2 hj2 hpar2
      obtain ⟨_, hcls2, _⟩ := hseg j e2 hj2
      rcases hcls2 with ⟨hp, _, _⟩ | ⟨q, hq1, _, _, pe, hpe, _, _, hcn, hos⟩
      · rw [hpar2] at hp
        omega
      · rw [hpar2] at hq1
        have hqq : q = i := by omega
        subst hqq
        rw [Nat.sub_zero, he] at hpe
        injection hpe with hpe
        subst hpe
        exact hnot ⟨hcn, hos⟩
  · intro hnd u r hrmem hu
    rw [hmap] at hrmem
    obtain ⟨A, E, h1, h2, h3⟩ := (flatten_setOpen_all u).2 t.roots hnd r hrmem hu
    refine ⟨A, E, ?_, ?_, ?_⟩
    · rw [hmap]
      exact h1
    · rw [cache_map_uuid_bridge { t with roots := setOpenByIdForest u false t.roots } hf]
      exact h2
    · rw [cache_map_uuid_bridge { t with roots := setOpenByIdForest u true t.roots } hf]
      exact h3

/-- The concrete scenario of the spec: roots A, B, C where B is open with
two children. -/
def c1Forest : Forest :=
  Forest.cons (exRow 10)
    (Forest.cons
      (Row.node 20 true true (Forest.cons (exRow 21) (Forest.cons (exRow 22) Forest.nil)))
      (Forest.cons (exRow 30) Forest.nil))

/-- A non-filtered table over c1Forest. -/
def c1Table : TableState := { emptyTable with roots := c1Forest }

theorem cacheIsOpenPreorder_witness :
    c1Table.filteredRows = none ∧
    (((rowCacheOf c1Table).map (fun e => e.row) = openFlattenForest c1Table.roots) ∧
    (∀ (i : Nat) (e : CacheEntry), (rowCacheOf c1Table)[i]? = some e →
      (e.parent = -1 ↔ e.depth = 0) ∧
      (e.parent = -1 → e.row ∈ c1Table.roots.toList) ∧
      (∀ q : Nat, e.parent = (q : Int) → q < i ∧ ∃ pe, (rowCacheOf c1Table)[q]? = some pe ∧
        e.row ∈ pe.row.children.toList ∧ e.depth = pe.depth + 1 ∧
        pe.row.canHaveChildren = true ∧ pe.row.isOpen = true)) ∧
    (∀ (i : Nat) (e : CacheEntry), (rowCacheOf c1Table)[i]? = some e →
      (e.row.canHaveChildren = true → e.row.isOpen = true →
        (((rowCacheOf c1Table).map (fun e => e.row)).drop (i + 1)).take
          (openFlattenForest e.row.children).length = openFlattenForest e.row.children) ∧
      (¬(e.row.canHaveChildren = true ∧ e.row.isOpen = true) →
        ∀ (j : Nat) (e2 : CacheEntry), (rowCacheOf c1Table)[j]? = some e2 →
          e2.parent ≠ (i : Int))) ∧
    ((uuidsForest c1Table.roots).Nodup → ∀ u r,
      r ∈ (rowCacheOf c1Table).map (fun e => e.row) → r.uuid = u →
      ∃ A E, (rowCacheOf c1Table).map (fun e => e.row) = A ++ r ::
          ((if r.canHaveChildren && r.isOpen then openFlattenForest r.children else []) ++ E) ∧
        (rowCacheOf { c1Table with roots := setOpenByIdForest u false c1Table.roots }).map
            (fun e => e.row.uuid) = A.map Row.uuid ++ u :: E.map Row.uuid ∧
        (rowCacheOf { c1Table with roots := setOpenByIdForest u true c1Table.roots }).map
            (fun e => e.row.uuid) = A.map Row.uuid ++ u ::
          ((if r.canHaveChildren then openFlattenForest r.children else []).map Row.uuid ++
            E.map Row.uuid))) :=
  ⟨rfl, cacheIsOpenPreorder c1Table rfl⟩

theorem build_count_all (pm : TableParams) :
    (∀ (r : Row) (p : Int) (i d : Nat),
      (buildRowCacheEntry pm true r p i d).1.length = countOpenRowChildrenRecursively r) ∧
    (∀ (f : Forest) (p : Int) (i d : Nat),
      (buildRowCacheForest pm true f p i d).1.length = countOpenForest f) :=
  row_forest_induction
    (fun r => ∀ (p : Int) (i d : Nat),
      (buildRowCacheEntry pm true r p i d).1.length = countOpenRowChildrenRecursively r)
    (fun f => ∀ (p : Int) (i d : Nat),
      (buildRowCacheForest pm true f p i d).1.length = countOpenForest f)
    (fun v ch op cs ih p i d => by
      rw [buildRowCacheEntry_true]
      show _ = 1 + (if ch && op then countOpenForest cs else 0)
      by_cases hco : (ch && op) = true
      · rw [if_pos hco, if_pos hco, List.length_cons, ih (Int.ofNat i) (i + 1) (d + 1)]
        omega
      · rw [if_neg hco, if_neg hco]
        rfl)
    (fun p i d => rfl)
    (fun r rs ihr ihrs p i d => by
      rw [buildRowCacheForest_cons]
      show ((buildRowCacheEntry pm true r p i d).1 ++ _).length = _
      rw [List.length_append, ihr p i d, ihrs]
      rfl)

/-- The number of cache entries laid out equals the rowCount that
SyncToModel pre-computes to size the slice: the consecutive writes of
buildRowCacheEntry stay in bounds and fill the slice exactly, so the list
model of the written segment coincides with the Go array. -/
theorem rowCacheOf_length (t : TableState) :
    (rowCacheOf t).length = match t.filteredRows with
      | some fr => fr.toList.length
      | none => countOpenForest t.roots := by
  cases hf : t.filteredRows with
  | none =>
    rw [rowCacheOf_none t hf]
    exact (build_count_all t.params).2 t.roots (-1) 0 0
  | some fr =>
    have hc : rowCacheOf t = (buildRowCacheForest t.params false fr (-1) 0 0).1 := by
      simp [rowCacheOf, RootRows, hf]
    have hm := (buildRowCacheForest_filtered t.params fr (-1) 0 0).1
    show (rowCacheOf t).length = fr.toList.length
    rw [hc, ← hm, List.length_map]
